import Mathlib

/-!
# go-pomodoro: the cycle state machine of `main.go`

A shallow embedding of `PomodoroClock` (main.go) and of the part of the
`github.com/looplab/fsm` API that it drives (`NewFSM`, `Event`, `SetState`,
`Current`), followed by theorems about the run loop `RunPomodoro`.

Conventions of the embedding

* Go `int` and `time.Duration` are 64-bit two's complement integers. They are
  embedded as `Int`; the one arithmetic operation that can leave the range,
  `pm.CompletedCycles += 1`, is wrapped explicitly by `wrap64`.
* The clock is mutated in place in Go. Here every operation takes the clock and
  returns the new clock.
* Side effects (loop iterations, calls into the state machine, state changes,
  debug log lines, timed waits, writes of the counter) are appended, in program
  order, to the ghost field `trace` of the clock.
* `RunPomodoro` is a `for` loop without a bound. It is embedded with a fuel
  argument that counts loop iterations: `none` means that the fuel was used up
  before the loop condition became false.
* `(*fsm.FSM).Event` is library code. It is embedded as the library documents it
  for the callback signature used here: a callback registered under the name of
  an event runs after the machine has entered the destination state, and an
  event that is not declared for the current state is refused with an error
  before anything is changed.
* Theorems about the increment assume that `Cycles` and `CompletedCycles` lie in
  the `int64` range (`minInt64`, `maxInt64`), as every Go value does.
-/

namespace Pomodoro

/-! ## Machine integers -/

/-- Smallest value of a Go `int` / `int64`. -/
def minInt64 : Int := -9223372036854775808

/-- Largest value of a Go `int` / `int64`. -/
def maxInt64 : Int := 9223372036854775807

/-- Two's complement wrap-around of a mathematical integer into the `int64` range. -/
def wrap64 (x : Int) : Int :=
  (x + 9223372036854775808) % 18446744073709551616 - 9223372036854775808

/-- The constant `time.Minute`, in nanoseconds. -/
def Minute : Int := 60000000000

/-! ## Observations -/

/-- Observable actions of the program, in the order in which they happen. -/
inductive Obs where
  /-- Start of one iteration of the loop of `RunPomodoro`: the `switch` reads
  `pm.State.Current()` and finds `current`. -/
  | iteration (current : String)
  /-- Call `pm.State.Event(event)` made while the machine is in state `current`. -/
  | fire (event : String) (current : String)
  /-- Assignment of the current state of the machine (a transition or `SetState`). -/
  | state (s : String)
  /-- Line `log.Debug().Int("CompletedCycles", c).Str("state", st).Dur("timeout", t).Msg(msg)`. -/
  | debug (msg : String) (c : Int) (st : String) (t : Int)
  /-- Line `log.Debug().Msg(msg)`. -/
  | debugMsg (msg : String)
  /-- Call `waitForTime(timeout)`. -/
  | wait (timeout : Int)
  /-- Assignment of `pm.CompletedCycles`. -/
  | completed (n : Int)
  deriving DecidableEq, Repr

/-! ## The clock -/

/-- The struct `PomodoroClock`. `State` is the current state of the `*fsm.FSM`
(what `pm.State.Current()` returns); its transition table and callbacks are fixed
by `NewPomodoroClock` and are the constants `events` and `callbacks` below.
`trace` is the ghost record of observable actions. -/
structure PomodoroClock where
  Cycles : Int
  CompletedCycles : Int
  WorkTime : Int
  ShortRestTime : Int
  LongRestTime : Int
  State : String
  trace : List Obs
  deriving DecidableEq, Repr

/-- Append one observation to the trace. -/
def record (o : Obs) (pm : PomodoroClock) : PomodoroClock :=
  { pm with trace := pm.trace ++ [o] }

/-- The method `(*fsm.FSM).SetState`: assigns the current state, runs no callback. -/
def SetState (s : String) (pm : PomodoroClock) : PomodoroClock :=
  record (Obs.state s) { pm with State := s }

/-- The duration handed to `time.After` by `waitForTime`: `timeout * time.Minute`
in `int64` arithmetic. -/
def waitDuration (timeout : Int) : Int :=
  wrap64 (timeout * Minute)

/-- The function `waitForTime`: blocks until `time.After(timeout * time.Minute)` fires. -/
def waitForTime (timeout : Int) (pm : PomodoroClock) : PomodoroClock :=
  record (Obs.wait timeout) pm

/-! ## Callbacks -/

/-- The callback `working`. It runs after the machine entered the destination state. -/
def working (pm : PomodoroClock) : PomodoroClock :=
  if pm.Cycles ≤ 0 then
    SetState "end" pm
  else
    let pm := record (Obs.debug "Working for..." pm.CompletedCycles pm.State pm.WorkTime) pm
    let pm := waitForTime pm.WorkTime pm
    SetState "rest" pm

/-- The callback `resting`. -/
def resting (pm : PomodoroClock) : PomodoroClock :=
  let timeout :=
    if Int.tmod (wrap64 (pm.CompletedCycles + 1)) 4 = 0 then pm.LongRestTime
    else pm.ShortRestTime
  let pm := record (Obs.debug "Sleeping for..." pm.CompletedCycles pm.State timeout) pm
  let pm := waitForTime timeout pm
  let pm := SetState "begin" pm
  record (Obs.completed (wrap64 (pm.CompletedCycles + 1)))
    { pm with CompletedCycles := wrap64 (pm.CompletedCycles + 1) }

/-- The callback `finalizing`. -/
def finalizing (pm : PomodoroClock) : PomodoroClock :=
  record (Obs.debugMsg "finalizing callback") pm

/-! ## The state machine built by `NewPomodoroClock` -/

/-- One entry of `fsm.Events`. -/
structure EventDesc where
  Name : String
  Src : List String
  Dst : String

/-- The `fsm.Events` table of `NewPomodoroClock`. -/
def events : List EventDesc :=
  [ { Name := "working", Src := ["begin"], Dst := "work" },
    { Name := "resting", Src := ["rest"], Dst := "work" },
    { Name := "finalizing", Src := ["end"], Dst := "begin" } ]

/-- The `fsm.Callbacks` map of `NewPomodoroClock`. Each key is the name of an event
and of no state, so `NewFSM` registers each callback as the "after event" callback
of that event. -/
def callbacks (name : String) : Option (PomodoroClock → PomodoroClock) :=
  if name = "working" then some working
  else if name = "resting" then some resting
  else if name = "finalizing" then some finalizing
  else none

/-- The lookup `f.transitions[eKey{event, f.current}]`: the destination declared for
`event` in state `current`, if any. -/
def transitions (event current : String) : Option String :=
  match events.find? (fun d => decide (d.Name = event ∧ current ∈ d.Src)) with
  | some d => some d.Dst
  | none => none

/-- The errors `(*fsm.FSM).Event` can return on this machine. -/
inductive FsmError where
  /-- The event is declared, but not for the current state. -/
  | InvalidEventError (event : String) (state : String)
  /-- The event is not declared at all. -/
  | UnknownEventError (event : String)
  /-- The declared destination is the current state. -/
  | NoTransitionError
  deriving DecidableEq, Repr

/-- The "after event" callbacks of `event`. -/
def afterEventCallbacks (event : String) (pm : PomodoroClock) : PomodoroClock :=
  match callbacks event with
  | some fn => fn pm
  | none => pm

/-- The method `(*fsm.FSM).Event` on the machine of `NewPomodoroClock`: look the
transition up; when there is none return an error and touch nothing; otherwise
make the destination the current state and then run the callback of the event. -/
def Event (event : String) (pm : PomodoroClock) : Option FsmError × PomodoroClock :=
  let pm := record (Obs.fire event pm.State) pm
  match transitions event pm.State with
  | none =>
    if events.any (fun d => decide (d.Name = event)) then
      (some (FsmError.InvalidEventError event pm.State), pm)
    else
      (some (FsmError.UnknownEventError event), pm)
  | some dst =>
    if pm.State = dst then
      (some FsmError.NoTransitionError, afterEventCallbacks event pm)
    else
      (none, afterEventCallbacks event (SetState dst pm))

/-- The function `NewPomodoroClock`: zero-valued fields, machine in state `begin`. -/
def NewPomodoroClock : PomodoroClock :=
  { Cycles := 0, CompletedCycles := 0, WorkTime := 0, ShortRestTime := 0,
    LongRestTime := 0, State := "begin", trace := [] }

/-- The clock `main` runs when no flag is given: every flag stores its default
`Value` in its `Destination`. -/
def defaultClock : PomodoroClock :=
  { NewPomodoroClock with
    CompletedCycles := 0, Cycles := 1, ShortRestTime := 3, LongRestTime := 15,
    WorkTime := 25 }

/-! ## The run loop -/

/-- The body of the `for` loop of `RunPomodoro`: the `switch` on the current state.
The first component is the error returned by the fired event, if any. A state
without a `case` falls through the `switch`. -/
def loopBody (pm : PomodoroClock) : Option FsmError × PomodoroClock :=
  let pm := record (Obs.iteration pm.State) pm
  if pm.State = "begin" then Event "working" pm
  else if pm.State = "rest" then Event "resting" pm
  else if pm.State = "end" then Event "finalizing" pm
  else (none, pm)

/-- The method `RunPomodoro`. `fuel` bounds the number of loop iterations; the
result is `none` when the loop is still running after `fuel` iterations, and
otherwise the returned error (`none` for `nil`) with the final clock. -/
def RunPomodoro : Nat → PomodoroClock → Option (Option FsmError × PomodoroClock)
  | fuel, pm =>
    if pm.CompletedCycles < pm.Cycles then
      match fuel with
      | 0 => none
      | fuel + 1 =>
        match loopBody pm with
        | (some err, pm) => some (some err, pm)
        | (none, pm) => RunPomodoro fuel pm
    else
      some (none, pm)

/-! ## Vocabulary of the statements -/

/-- The rest timeout that `resting` selects from the short and the long rest time
when `c` cycles are completed, for `c` in the range where `c + 1` does not overflow. -/
def restTimeout (short long c : Int) : Int :=
  if (c + 1) % 4 = 0 then long else short

/-- What one full cycle adds to the trace when it starts in state `begin` with `c`
completed cycles, works for `work` and rests for `r`: event `working` with its work
wait, then event `resting` with its rest wait and the increment of the counter. -/
def cycleTrace (work c r : Int) : List Obs :=
  [Obs.iteration "begin", Obs.fire "working" "begin", Obs.state "work",
   Obs.debug "Working for..." c "work" work, Obs.wait work, Obs.state "rest",
   Obs.iteration "rest", Obs.fire "resting" "rest", Obs.state "work",
   Obs.debug "Sleeping for..." c "work" r, Obs.wait r, Obs.state "begin",
   Obs.completed (c + 1)]

/-- The traces of `k` consecutive cycles, the first one starting with `c` completed
cycles. -/
def cyclesTrace (work short long c : Int) : Nat → List Obs
  | 0 => []
  | k + 1 => cycleTrace work c (restTimeout short long c) ++ cyclesTrace work short long (c + 1) k

/-- The timeouts of all timed waits of a trace, in order. -/
def waits : List Obs → List Int
  | [] => []
  | Obs.wait t :: tr => t :: waits tr
  | _ :: tr => waits tr

/-- The timed waits of a trace that directly follow a debug line, in order: the
message and the completed-cycle count of that line, and the timeout waited. The
work wait follows the line "Working for...", the rest wait the line
"Sleeping for...". -/
def announcedWaits : List Obs → List (String × Int × Int)
  | [] => []
  | Obs.debug msg c _ _ :: Obs.wait t :: tr => (msg, c, t) :: announcedWaits tr
  | _ :: tr => announcedWaits tr

/-- The rest waits of a trace, in order: for each wait announced by a
"Sleeping for..." line, the completed-cycle count logged on that line (the count
before the increment) and the timeout waited. -/
def restWaits (tr : List Obs) : List (Int × Int) :=
  (announcedWaits tr).filterMap
    (fun a => if a.1 = "Sleeping for..." then some a.2 else none)

/-- The work waits of a trace, in order: for each wait announced by a
"Working for..." line, the completed-cycle count logged on that line and the
timeout waited. -/
def workWaits (tr : List Obs) : List (Int × Int) :=
  (announcedWaits tr).filterMap
    (fun a => if a.1 = "Working for..." then some a.2 else none)

/-- The clock at the top of the loop after `n` iterations of the loop body, as long
as the loop has neither ended nor returned an error before. -/
def iterations : Nat → PomodoroClock → PomodoroClock
  | 0, pm => pm
  | n + 1, pm => iterations n (loopBody pm).2

/-- The measure `2 * (Cycles - CompletedCycles) - (1 if the state is rest else 0)`. -/
def loopMeasure (pm : PomodoroClock) : Int :=
  2 * (pm.Cycles - pm.CompletedCycles) - (if pm.State = "rest" then 1 else 0)

/-- The number of loop iterations recorded in a trace. -/
def iterationCount : List Obs → Nat
  | [] => 0
  | Obs.iteration _ :: tr => iterationCount tr + 1
  | _ :: tr => iterationCount tr

/-- The configuration of a clock: the fields that the flags set and that a run only
reads. -/
def config (pm : PomodoroClock) : Int × Int × Int × Int :=
  (pm.Cycles, pm.WorkTime, pm.ShortRestTime, pm.LongRestTime)

/-- What one idle round adds to the trace when `Cycles ≤ 0`: event `working` takes the
machine from `begin` to `end`, event `finalizing` takes it back to `begin`. -/
def idleRound : List Obs :=
  [Obs.iteration "begin", Obs.fire "working" "begin", Obs.state "work", Obs.state "end",
   Obs.iteration "end", Obs.fire "finalizing" "end", Obs.state "begin",
   Obs.debugMsg "finalizing callback"]

/-- The traces of `j` consecutive idle rounds. -/
def idleRounds : Nat → List Obs
  | 0 => []
  | j + 1 => idleRound ++ idleRounds j

/-! ## Concrete clocks -/

/-- A clock with no cycle requested and a negative count. -/
def negativeCountClock : PomodoroClock :=
  { defaultClock with Cycles := 0, CompletedCycles := -1 }


/-- A clock that resumes a run of three cycles after the first one. -/
def resumedClock : PomodoroClock :=
  { defaultClock with Cycles := 3, CompletedCycles := 1 }

/-- A fresh clock set up for five cycles. -/
def fiveCycleClock : PomodoroClock :=
  { defaultClock with Cycles := 5 }

/-- A clock whose count already exceeds the requested number of cycles. -/
def overshootClock : PomodoroClock :=
  { defaultClock with Cycles := 3, CompletedCycles := 5 }

/-- A clock in state `begin` whose count has already reached the requested number
of cycles. -/
def completedClock : PomodoroClock :=
  { defaultClock with CompletedCycles := 1 }

/-- The default clock after `pm.State.SetState("work")`, without the trace entry. -/
def forcedWorkClock : PomodoroClock :=
  { defaultClock with State := "work" }

/-- The clock set up for five cycles after `pm.State.SetState("work")`, without the
trace entry. -/
def forcedWorkFiveCycleClock : PomodoroClock :=
  { fiveCycleClock with State := "work" }

/-- A clock in state `rest` that is about to complete the fourth of four cycles. -/
def fourthRestClock : PomodoroClock :=
  { defaultClock with Cycles := 4, CompletedCycles := 3, State := "rest" }

/-! ## Single events -/

/-- Wrap-around is the identity on the `int64` range. -/
theorem wrap64_of_range (x : Int) (h1 : minInt64 ≤ x) (h2 : x ≤ maxInt64) : wrap64 x = x := by
  unfold wrap64
  unfold minInt64 at h1
  unfold maxInt64 at h2
  omega

/-- Go's truncated remainder by 4 is zero exactly when the Euclidean one is. -/
theorem tmod_four_eq_zero_iff (x : Int) : Int.tmod x 4 = 0 ↔ x % 4 = 0 := by
  constructor
  · intro h
    exact Int.emod_eq_zero_of_dvd (Int.dvd_of_tmod_eq_zero h)
  · intro h
    exact Int.tmod_eq_zero_of_dvd (Int.dvd_of_emod_eq_zero h)

/-- Event `working` fired in state `begin`. -/
theorem Event_working_begin (pm : PomodoroClock) (hb : pm.State = "begin") :
    Event "working" pm =
      (none,
        if pm.Cycles ≤ 0 then
          { pm with
            State := "end",
            trace := pm.trace ++
              [Obs.fire "working" "begin", Obs.state "work", Obs.state "end"] }
        else
          { pm with
            State := "rest",
            trace := pm.trace ++
              [Obs.fire "working" "begin", Obs.state "work",
               Obs.debug "Working for..." pm.CompletedCycles "work" pm.WorkTime,
               Obs.wait pm.WorkTime, Obs.state "rest"] }) := by
  obtain ⟨N, c, w, s, l, st, tr⟩ := pm
  simp only at hb
  subst hb
  by_cases hN : N ≤ 0 <;>
    simp [Event, transitions, events, afterEventCallbacks, callbacks, working, SetState,
      record, waitForTime, hN]

/-- Event `resting` fired in state `rest`. -/
theorem Event_resting_rest (pm : PomodoroClock) (hb : pm.State = "rest") :
    Event "resting" pm =
      (none,
        { pm with
          CompletedCycles := wrap64 (pm.CompletedCycles + 1),
          State := "begin",
          trace := pm.trace ++
            [Obs.fire "resting" "rest", Obs.state "work",
             Obs.debug "Sleeping for..." pm.CompletedCycles "work"
               (if (wrap64 (pm.CompletedCycles + 1)) % 4 = 0 then pm.LongRestTime
                else pm.ShortRestTime),
             Obs.wait
               (if (wrap64 (pm.CompletedCycles + 1)) % 4 = 0 then pm.LongRestTime
                else pm.ShortRestTime),
             Obs.state "begin", Obs.completed (wrap64 (pm.CompletedCycles + 1))] }) := by
  obtain ⟨N, c, w, s, l, st, tr⟩ := pm
  simp only at hb
  subst hb
  simp [Event, transitions, events, afterEventCallbacks, callbacks, resting, SetState,
    record, waitForTime, tmod_four_eq_zero_iff]

/-- Event `finalizing` fired in state `end`. -/
theorem Event_finalizing_end (pm : PomodoroClock) (hb : pm.State = "end") :
    Event "finalizing" pm =
      (none,
        { pm with
          State := "begin",
          trace := pm.trace ++
            [Obs.fire "finalizing" "end", Obs.state "begin",
             Obs.debugMsg "finalizing callback"] }) := by
  obtain ⟨N, c, w, s, l, st, tr⟩ := pm
  simp only at hb
  subst hb
  simp [Event, transitions, events, afterEventCallbacks, callbacks, finalizing, SetState,
    record]

/-- The table declares no transition for an event outside its source state. -/
theorem transitions_eq_none (event st : String)
    (h1 : ¬ (event = "working" ∧ st = "begin"))
    (h2 : ¬ (event = "resting" ∧ st = "rest"))
    (h3 : ¬ (event = "finalizing" ∧ st = "end")) :
    transitions event st = none := by
  simp only [transitions, events, List.find?_cons, List.find?_nil, List.mem_singleton]
  have e1 : decide (("working" : String) = event ∧ st = "begin") = false := by
    simp only [decide_eq_false_iff_not]
    rintro ⟨rfl, hst⟩
    exact h1 ⟨rfl, hst⟩
  have e2 : decide (("resting" : String) = event ∧ st = "rest") = false := by
    simp only [decide_eq_false_iff_not]
    rintro ⟨rfl, hst⟩
    exact h2 ⟨rfl, hst⟩
  have e3 : decide (("finalizing" : String) = event ∧ st = "end") = false := by
    simp only [decide_eq_false_iff_not]
    rintro ⟨rfl, hst⟩
    exact h3 ⟨rfl, hst⟩
  simp only [e1, e2, e3]

/-- The events that the table declares. -/
theorem events_any_iff (event : String) :
    (events.any (fun d => decide (d.Name = event)) = true) ↔
      (event = "working" ∨ event = "resting" ∨ event = "finalizing") := by
  simp only [events, List.any_cons, List.any_nil, Bool.or_false, Bool.or_eq_true,
    decide_eq_true_eq]
  constructor
  · rintro (h | h | h)
    · exact Or.inl h.symm
    · exact Or.inr (Or.inl h.symm)
    · exact Or.inr (Or.inr h.symm)
  · rintro (h | h | h)
    · exact Or.inl h.symm
    · exact Or.inr (Or.inl h.symm)
    · exact Or.inr (Or.inr h.symm)

/-- An event fired in a state for which the table declares no transition from it. -/
theorem Event_not_declared (event : String) (pm : PomodoroClock)
    (h1 : ¬ (event = "working" ∧ pm.State = "begin"))
    (h2 : ¬ (event = "resting" ∧ pm.State = "rest"))
    (h3 : ¬ (event = "finalizing" ∧ pm.State = "end")) :
    Event event pm =
      (some
        (if event = "working" ∨ event = "resting" ∨ event = "finalizing" then
          FsmError.InvalidEventError event pm.State
        else FsmError.UnknownEventError event),
        { pm with trace := pm.trace ++ [Obs.fire event pm.State] }) := by
  have hfind := transitions_eq_none event pm.State h1 h2 h3
  simp only [Event, record, hfind]
  by_cases hd : event = "working" ∨ event = "resting" ∨ event = "finalizing"
  · rw [if_pos ((events_any_iff event).mpr hd), if_pos hd]
  · rw [if_neg (fun hc => hd ((events_any_iff event).mp hc)), if_neg hd]

/-- Appending an observation that is not a wait leaves the waits as they are. -/
theorem waits_append (tr tr2 : List Obs) : waits (tr ++ tr2) = waits tr ++ waits tr2 := by
  induction tr with
  | nil => rfl
  | cons o tr ih => cases o <;> simp_all [waits]

/-! ## The run loop, one iteration at a time -/

/-- The loop body in state `begin`. -/
theorem loopBody_begin (pm : PomodoroClock) (hb : pm.State = "begin") :
    loopBody pm =
      (none,
        if pm.Cycles ≤ 0 then
          { pm with
            State := "end",
            trace := pm.trace ++
              [Obs.iteration "begin", Obs.fire "working" "begin", Obs.state "work",
               Obs.state "end"] }
        else
          { pm with
            State := "rest",
            trace := pm.trace ++
              [Obs.iteration "begin", Obs.fire "working" "begin", Obs.state "work",
               Obs.debug "Working for..." pm.CompletedCycles "work" pm.WorkTime,
               Obs.wait pm.WorkTime, Obs.state "rest"] }) := by
  obtain ⟨N, c, w, sr, lr, st, tr⟩ := pm
  simp only at hb
  subst hb
  by_cases hN : N ≤ 0 <;> simp [loopBody, record, Event_working_begin, hN]

/-- The loop body in state `rest`. -/
theorem loopBody_rest (pm : PomodoroClock) (hb : pm.State = "rest") :
    loopBody pm =
      (none,
        { pm with
          CompletedCycles := wrap64 (pm.CompletedCycles + 1),
          State := "begin",
          trace := pm.trace ++
            [Obs.iteration "rest", Obs.fire "resting" "rest", Obs.state "work",
             Obs.debug "Sleeping for..." pm.CompletedCycles "work"
               (if (wrap64 (pm.CompletedCycles + 1)) % 4 = 0 then pm.LongRestTime
                else pm.ShortRestTime),
             Obs.wait
               (if (wrap64 (pm.CompletedCycles + 1)) % 4 = 0 then pm.LongRestTime
                else pm.ShortRestTime),
             Obs.state "begin", Obs.completed (wrap64 (pm.CompletedCycles + 1))] }) := by
  obtain ⟨N, c, w, sr, lr, st, tr⟩ := pm
  simp only at hb
  subst hb
  simp [loopBody, record, Event_resting_rest]

/-- The loop body in state `end`. -/
theorem loopBody_end (pm : PomodoroClock) (hb : pm.State = "end") :
    loopBody pm =
      (none,
        { pm with
          State := "begin",
          trace := pm.trace ++
            [Obs.iteration "end", Obs.fire "finalizing" "end", Obs.state "begin",
             Obs.debugMsg "finalizing callback"] }) := by
  obtain ⟨N, c, w, sr, lr, st, tr⟩ := pm
  simp only at hb
  subst hb
  simp [loopBody, record, Event_finalizing_end]

/-- The loop body in a state that has no `case`: nothing is fired. -/
theorem loopBody_other (pm : PomodoroClock) (h1 : pm.State ≠ "begin")
    (h2 : pm.State ≠ "rest") (h3 : pm.State ≠ "end") :
    loopBody pm = (none, { pm with trace := pm.trace ++ [Obs.iteration pm.State] }) := by
  simp [loopBody, record, h1, h2, h3]


/-- The loop returns `nil` at once when its condition is false. -/
theorem RunPomodoro_done (fuel : Nat) (pm : PomodoroClock)
    (h : ¬ pm.CompletedCycles < pm.Cycles) : RunPomodoro fuel pm = some (none, pm) := by
  unfold RunPomodoro
  simp [h]

/-- One iteration of the loop when its condition is true. -/
theorem RunPomodoro_succ (fuel : Nat) (pm : PomodoroClock)
    (h : pm.CompletedCycles < pm.Cycles) :
    RunPomodoro (fuel + 1) pm =
      match loopBody pm with
      | (some err, pm) => some (some err, pm)
      | (none, pm) => RunPomodoro fuel pm := by
  rw [RunPomodoro]
  simp [h]

/-- Two iterations of the loop from state `begin` perform one full cycle. -/
theorem RunPomodoro_cycle (fuel : Nat) (pm : PomodoroClock) (hb : pm.State = "begin")
    (hpos : 0 < pm.Cycles) (hlt : pm.CompletedCycles < pm.Cycles)
    (hmax : pm.Cycles ≤ maxInt64) (hmin : minInt64 ≤ pm.CompletedCycles) :
    RunPomodoro (fuel + 2) pm =
      RunPomodoro fuel
        { pm with
          CompletedCycles := pm.CompletedCycles + 1,
          trace := pm.trace ++ cycleTrace pm.WorkTime pm.CompletedCycles
            (restTimeout pm.ShortRestTime pm.LongRestTime pm.CompletedCycles) } := by
  obtain ⟨N, c, w, sr, lr, st, tr⟩ := pm
  simp only at hb hpos hlt hmax hmin
  subst hb
  have hw : wrap64 (c + 1) = c + 1 := wrap64_of_range _ (by omega) (by omega)
  have hN : ¬ N ≤ 0 := by omega
  rw [RunPomodoro_succ (fuel + 1) _ hlt]
  simp only [loopBody, record, if_true, Event_working_begin, hN, if_false]
  rw [RunPomodoro_succ fuel _ hlt]
  simp [loopBody, record, Event_resting_rest, hw, cycleTrace, restTimeout]

/-- The whole run from state `begin` when `k` cycles are left. -/
theorem RunPomodoro_cycles (k : Nat) :
    ∀ (pm : PomodoroClock) (extra : Nat), pm.State = "begin" → 0 < pm.Cycles →
      pm.Cycles ≤ maxInt64 → minInt64 ≤ pm.CompletedCycles →
      pm.CompletedCycles + k = pm.Cycles →
      RunPomodoro (2 * k + extra) pm =
        some (none,
          { pm with
            CompletedCycles := pm.Cycles,
            trace := pm.trace ++
              cyclesTrace pm.WorkTime pm.ShortRestTime pm.LongRestTime pm.CompletedCycles k }) := by
  induction k with
  | zero =>
    intro pm extra _ _ _ _ hk
    rw [RunPomodoro_done _ _ (by omega)]
    obtain ⟨N, c, w, sr, lr, st, tr⟩ := pm
    simp only [Nat.cast_zero, add_zero] at hk
    subst hk
    simp [cyclesTrace]
  | succ k ih =>
    intro pm extra hb hpos hmax hmin hk
    have hlt : pm.CompletedCycles < pm.Cycles := by omega
    have hfuel : 2 * (k + 1) + extra = (2 * k + extra) + 2 := by omega
    rw [hfuel, RunPomodoro_cycle _ pm hb hpos hlt hmax hmin]
    push_cast at hk
    rw [ih { pm with
             CompletedCycles := pm.CompletedCycles + 1,
             trace := pm.trace ++ cycleTrace pm.WorkTime pm.CompletedCycles
               (restTimeout pm.ShortRestTime pm.LongRestTime pm.CompletedCycles) }
          extra hb hpos hmax (by show minInt64 ≤ pm.CompletedCycles + 1; omega)
          (by show pm.CompletedCycles + 1 + (k : Int) = pm.Cycles; omega)]
    simp [cyclesTrace, restTimeout, cycleTrace]

/-! ## What one iteration and a whole run preserve -/

/-- One iteration under the loop condition keeps `Cycles`, does not lower the count
and does not push it beyond `Cycles`. -/
theorem loopBody_count (pm : PomodoroClock) (hlt : pm.CompletedCycles < pm.Cycles)
    (hmax : pm.Cycles ≤ maxInt64) (hmin : minInt64 ≤ pm.CompletedCycles) :
    (loopBody pm).2.Cycles = pm.Cycles ∧
      pm.CompletedCycles ≤ (loopBody pm).2.CompletedCycles ∧
      (loopBody pm).2.CompletedCycles ≤ pm.Cycles := by
  have hw : wrap64 (pm.CompletedCycles + 1) = pm.CompletedCycles + 1 :=
    wrap64_of_range _ (by omega) (by omega)
  by_cases hb : pm.State = "begin"
  · rw [loopBody_begin pm hb]
    by_cases hN : pm.Cycles ≤ 0
    · simp only [hN, if_true]
      exact ⟨trivial, le_refl _, by omega⟩
    · simp only [hN, if_false]
      exact ⟨trivial, le_refl _, by omega⟩
  · by_cases hr : pm.State = "rest"
    · rw [loopBody_rest pm hr]
      simp only [hw]
      exact ⟨trivial, by omega, by omega⟩
    · by_cases he : pm.State = "end"
      · rw [loopBody_end pm he]
        exact ⟨rfl, le_refl _, by show pm.CompletedCycles ≤ pm.Cycles; omega⟩
      · rw [loopBody_other pm hb hr he]
        exact ⟨rfl, le_refl _, by show pm.CompletedCycles ≤ pm.Cycles; omega⟩

/-- A run that returns keeps `Cycles`, does not lower the count, and leaves it at most
`Cycles` when it started at most `Cycles`. -/
theorem RunPomodoro_count (fuel : Nat) :
    ∀ (pm : PomodoroClock) (r : Option FsmError × PomodoroClock),
      pm.Cycles ≤ maxInt64 → minInt64 ≤ pm.CompletedCycles →
      RunPomodoro fuel pm = some r →
      r.2.Cycles = pm.Cycles ∧ pm.CompletedCycles ≤ r.2.CompletedCycles ∧
        (pm.CompletedCycles ≤ pm.Cycles → r.2.CompletedCycles ≤ pm.Cycles) := by
  induction fuel with
  | zero =>
    intro pm r _ _ hrun
    by_cases hlt : pm.CompletedCycles < pm.Cycles
    · rw [RunPomodoro] at hrun
      simp [hlt] at hrun
    · rw [RunPomodoro_done _ _ hlt] at hrun
      cases hrun
      exact ⟨rfl, le_refl _, fun h => h⟩
  | succ fuel ih =>
    intro pm r hmax hmin hrun
    by_cases hlt : pm.CompletedCycles < pm.Cycles
    · rw [RunPomodoro_succ _ _ hlt] at hrun
      obtain ⟨hC, hlo, hhi⟩ := loopBody_count pm hlt hmax hmin
      cases hbody : loopBody pm with
      | mk err pm2 =>
        rw [hbody] at hrun hC hlo hhi
        simp only at hC hlo hhi
        cases err with
        | some e =>
          simp only [Option.some.injEq] at hrun
          subst hrun
          exact ⟨hC, hlo, fun _ => hhi⟩
        | none =>
          simp only at hrun
          obtain ⟨h1, h2, h3⟩ := ih pm2 r (by omega) (by omega) hrun
          exact ⟨by omega, by omega, fun _ => by have := h3 (by omega); omega⟩
    · rw [RunPomodoro_done _ _ hlt] at hrun
      cases hrun
      exact ⟨rfl, le_refl _, fun h => h⟩

/-- In a state without a `case` the loop never ends: every iteration falls through
the `switch` and finds the loop condition as true as before. -/
theorem RunPomodoro_spins (fuel : Nat) :
    ∀ pm : PomodoroClock, pm.State ≠ "begin" → pm.State ≠ "rest" → pm.State ≠ "end" →
      pm.CompletedCycles < pm.Cycles → RunPomodoro fuel pm = none := by
  induction fuel with
  | zero =>
    intro pm _ _ _ hlt
    rw [RunPomodoro]
    simp [hlt]
  | succ fuel ih =>
    intro pm h1 h2 h3 hlt
    rw [RunPomodoro_succ _ _ hlt, loopBody_other pm h1 h2 h3]
    exact ih _ h1 h2 h3 hlt

/-- What the cycles add to the trace: the loop finds the machine only in `begin` and
`rest`, fires `working` in `begin` and `resting` in `rest`, and the machine is never
put in state `end`. -/
theorem mem_cyclesTrace (work short long : Int) (k : Nat) :
    ∀ (c : Int) (o : Obs), o ∈ cyclesTrace work short long c k →
      o ≠ Obs.state "end" ∧
      (∀ p, o ≠ Obs.fire "finalizing" p) ∧
      (∀ p, o = Obs.iteration p → p = "begin" ∨ p = "rest") ∧
      (∀ e p, o = Obs.fire e p →
        (e = "working" ∧ p = "begin") ∨ (e = "resting" ∧ p = "rest")) := by
  induction k with
  | zero =>
    intro c o ho
    simp [cyclesTrace] at ho
  | succ k ih =>
    intro c o ho
    simp only [cyclesTrace, List.mem_append] at ho
    rcases ho with ho | ho
    · simp only [cycleTrace, List.mem_cons, List.mem_singleton, List.not_mem_nil,
        or_false] at ho
      rcases ho with h | h | h | h | h | h | h | h | h | h | h | h | h <;> subst h <;> simp
    · exact ih (c + 1) o ho

/-! ## Projections of the trace of a run -/

/-- The timed waits of `k` cycles: a work wait and a rest wait per cycle. -/
theorem waits_cyclesTrace (work short long : Int) (k : Nat) :
    ∀ c : Int, waits (cyclesTrace work short long c k) =
      (List.range k).flatMap (fun i => [work, restTimeout short long (c + i)]) := by
  induction k with
  | zero => intro c; rfl
  | succ k ih =>
    intro c
    simp only [cyclesTrace, cycleTrace, List.cons_append, List.nil_append, waits, ih,
      List.range_succ_eq_map, List.flatMap_cons, List.flatMap_map, Nat.cast_zero, add_zero]
    simp only [Function.comp_def, Nat.succ_eq_add_one, Nat.cast_add, Nat.cast_one]
    have hshift : ∀ a : Nat, c + ((a : Int) + 1) = c + 1 + a := by intro a; ring
    simp only [hshift]
    have hnil : ∀ l : List Obs, ([] : List Obs).append l = l := fun _ => rfl
    rw [hnil, ih (c + 1)]

/-- The announced waits of `k` cycles. -/
theorem announcedWaits_cyclesTrace (work short long : Int) (k : Nat) :
    ∀ c : Int, announcedWaits (cyclesTrace work short long c k) =
      (List.range k).flatMap (fun i =>
        [("Working for...", c + i, work),
         ("Sleeping for...", c + i, restTimeout short long (c + i))]) := by
  induction k with
  | zero => intro c; rfl
  | succ k ih =>
    intro c
    simp only [cyclesTrace, cycleTrace, List.cons_append, List.nil_append, announcedWaits, ih,
      List.range_succ_eq_map, List.flatMap_cons, List.flatMap_map, Nat.cast_zero, add_zero]
    simp only [Function.comp_def, Nat.succ_eq_add_one, Nat.cast_add, Nat.cast_one]
    have hshift : ∀ a : Nat, c + ((a : Int) + 1) = c + 1 + a := by intro a; ring
    simp only [hshift]
    have hnil : ∀ l : List Obs, ([] : List Obs).append l = l := fun _ => rfl
    rw [hnil, ih (c + 1)]

/-- Two entries per element. -/
theorem length_flatMap_pair (f g : Nat → Int) (l : List Nat) :
    (l.flatMap (fun i => [f i, g i])).length = 2 * l.length := by
  induction l with
  | nil => rfl
  | cons i l ih => simp only [List.flatMap_cons, List.length_append, List.length_cons,
      List.length_nil, ih]; omega

/-- The rest waits of `k` cycles. -/
theorem restWaits_cyclesTrace (work short long c : Int) (k : Nat) :
    restWaits (cyclesTrace work short long c k) =
      (List.range k).map
        (fun (i : Nat) => (c + (i : Int), restTimeout short long (c + (i : Int)))) := by
  rw [restWaits, announcedWaits_cyclesTrace]
  induction List.range k with
  | nil => rfl
  | cons i l ih => simpa [List.flatMap_cons, List.filterMap_cons] using ih

/-- The work waits of `k` cycles. -/
theorem workWaits_cyclesTrace (work short long c : Int) (k : Nat) :
    workWaits (cyclesTrace work short long c k) =
      (List.range k).map (fun (i : Nat) => (c + (i : Int), work)) := by
  rw [workWaits, announcedWaits_cyclesTrace]
  induction List.range k with
  | nil => rfl
  | cons i l ih => simpa [List.flatMap_cons, List.filterMap_cons] using ih

/-! ## Iterations of the loop body -/

/-- Two iterations from state `begin` perform one full cycle. -/
theorem iterations_cycle (n : Nat) (pm : PomodoroClock) (hb : pm.State = "begin")
    (hpos : 0 < pm.Cycles) (hlt : pm.CompletedCycles < pm.Cycles)
    (hmax : pm.Cycles ≤ maxInt64) (hmin : minInt64 ≤ pm.CompletedCycles) :
    iterations (n + 2) pm =
      iterations n
        { pm with
          CompletedCycles := pm.CompletedCycles + 1,
          trace := pm.trace ++ cycleTrace pm.WorkTime pm.CompletedCycles
            (restTimeout pm.ShortRestTime pm.LongRestTime pm.CompletedCycles) } := by
  obtain ⟨N, c, w, sr, lr, st, tr⟩ := pm
  simp only at hb hpos hlt hmax hmin
  subst hb
  have hw : wrap64 (c + 1) = c + 1 := wrap64_of_range _ (by omega) (by omega)
  have hN : ¬ N ≤ 0 := by omega
  rw [iterations, loopBody_begin _ rfl]
  simp only [hN, if_false]
  rw [iterations, loopBody_rest _ rfl]
  simp [hw, cycleTrace, restTimeout]

/-- The first iteration from state `begin` when a cycle is left. -/
theorem iterations_one (pm : PomodoroClock) (hb : pm.State = "begin")
    (hpos : 0 < pm.Cycles) :
    iterations 1 pm =
      { pm with
        State := "rest",
        trace := pm.trace ++
          [Obs.iteration "begin", Obs.fire "working" "begin", Obs.state "work",
           Obs.debug "Working for..." pm.CompletedCycles "work" pm.WorkTime,
           Obs.wait pm.WorkTime, Obs.state "rest"] } := by
  have hN : ¬ pm.Cycles ≤ 0 := by omega
  rw [iterations, loopBody_begin pm hb]
  simp only [hN, if_false]
  rfl

/-- The clocks at the top of the loop during a run of `k` cycles from state `begin`:
after `i ≤ 2 * k` iterations, `i / 2` cycles are completed and the machine is in
`begin` for even `i`, in `rest` for odd `i`. -/
theorem iterations_run (k : Nat) :
    ∀ (pm : PomodoroClock) (i : Nat), pm.State = "begin" → 0 < pm.Cycles →
      pm.Cycles ≤ maxInt64 → minInt64 ≤ pm.CompletedCycles →
      pm.CompletedCycles + k = pm.Cycles → i ≤ 2 * k →
      (iterations i pm).Cycles = pm.Cycles ∧
      (iterations i pm).CompletedCycles = pm.CompletedCycles + ((i / 2 : Nat) : Int) ∧
      (iterations i pm).State = (if i % 2 = 0 then "begin" else "rest") := by
  induction k with
  | zero =>
    intro pm i hb _ _ _ _ hi
    have hi0 : i = 0 := by omega
    subst hi0
    simp [iterations, hb]
  | succ k ih =>
    intro pm i hb hpos hmax hmin hk hi
    push_cast at hk
    match i, hi with
    | 0, _ => simp [iterations, hb]
    | 1, _ =>
      rw [iterations_one pm hb hpos]
      simp
    | j + 2, hj =>
      rw [iterations_cycle j pm hb hpos (by omega) hmax hmin]
      obtain ⟨h1, h2, h3⟩ := ih
        { pm with
          CompletedCycles := pm.CompletedCycles + 1,
          trace := pm.trace ++ cycleTrace pm.WorkTime pm.CompletedCycles
            (restTimeout pm.ShortRestTime pm.LongRestTime pm.CompletedCycles) }
        j hb hpos hmax (by show minInt64 ≤ pm.CompletedCycles + 1; omega)
        (by show pm.CompletedCycles + 1 + (k : Int) = pm.Cycles; omega) (by omega)
      refine ⟨h1, ?_, ?_⟩
      · rw [h2]
        show pm.CompletedCycles + 1 + ((j / 2 : Nat) : Int) =
          pm.CompletedCycles + (((j + 2) / 2 : Nat) : Int)
        omega
      · rw [h3]
        have hpar : (j + 2) % 2 = j % 2 := by omega
        rw [hpar]

/-- The clock after the `2 * k` iterations of a run of `k` cycles from state `begin`. -/
theorem iterations_cycles (k : Nat) :
    ∀ pm : PomodoroClock, pm.State = "begin" → 0 < pm.Cycles →
      pm.Cycles ≤ maxInt64 → minInt64 ≤ pm.CompletedCycles →
      pm.CompletedCycles + k = pm.Cycles →
      iterations (2 * k) pm =
        { pm with
          CompletedCycles := pm.Cycles,
          trace := pm.trace ++
            cyclesTrace pm.WorkTime pm.ShortRestTime pm.LongRestTime pm.CompletedCycles k } := by
  induction k with
  | zero =>
    intro pm _ _ _ _ hk
    obtain ⟨N, c, w, sr, lr, st, tr⟩ := pm
    simp only [Nat.cast_zero, add_zero] at hk
    subst hk
    simp [iterations, cyclesTrace]
  | succ k ih =>
    intro pm hb hpos hmax hmin hk
    push_cast at hk
    have hfuel : 2 * (k + 1) = 2 * k + 2 := by omega
    rw [hfuel, iterations_cycle _ pm hb hpos (by omega) hmax hmin]
    rw [ih { pm with
             CompletedCycles := pm.CompletedCycles + 1,
             trace := pm.trace ++ cycleTrace pm.WorkTime pm.CompletedCycles
               (restTimeout pm.ShortRestTime pm.LongRestTime pm.CompletedCycles) }
          hb hpos hmax (by show minInt64 ≤ pm.CompletedCycles + 1; omega)
          (by show pm.CompletedCycles + 1 + (k : Int) = pm.Cycles; omega)]
    simp [cyclesTrace, restTimeout, cycleTrace]

/-- The run is still going on when fewer than `2 * k` iterations are allowed. -/
theorem RunPomodoro_short (k : Nat) :
    ∀ (pm : PomodoroClock) (fuel : Nat), pm.State = "begin" → 0 < pm.Cycles →
      pm.Cycles ≤ maxInt64 → minInt64 ≤ pm.CompletedCycles →
      pm.CompletedCycles + k = pm.Cycles → fuel < 2 * k →
      RunPomodoro fuel pm = none := by
  induction k with
  | zero =>
    intro pm fuel _ _ _ _ _ hf
    omega
  | succ k ih =>
    intro pm fuel hb hpos hmax hmin hk hf
    push_cast at hk
    have hlt : pm.CompletedCycles < pm.Cycles := by omega
    have hN : ¬ pm.Cycles ≤ 0 := by omega
    match fuel, hf with
    | 0, _ =>
      rw [RunPomodoro]
      simp [hlt]
    | 1, _ =>
      rw [RunPomodoro_succ 0 pm hlt, loopBody_begin pm hb]
      simp only [hN, if_false]
      rw [RunPomodoro]
      simp [hlt]
    | f + 2, hf2 =>
      rw [RunPomodoro_cycle f pm hb hpos hlt hmax hmin]
      exact ih _ f hb hpos hmax (by show minInt64 ≤ pm.CompletedCycles + 1; omega)
        (by show pm.CompletedCycles + 1 + (k : Int) = pm.Cycles; omega) (by omega)

/-- The iterations recorded in a trace that is put together from two. -/
theorem iterationCount_append (tr tr2 : List Obs) :
    iterationCount (tr ++ tr2) = iterationCount tr + iterationCount tr2 := by
  induction tr with
  | nil => simp [iterationCount]
  | cons o tr ih =>
    cases o <;> simp_all [iterationCount]
    omega

/-- Two iterations are recorded per cycle. -/
theorem iterationCount_cyclesTrace (work short long : Int) (k : Nat) :
    ∀ c : Int, iterationCount (cyclesTrace work short long c k) = 2 * k := by
  induction k with
  | zero => intro c; rfl
  | succ k ih =>
    intro c
    rw [cyclesTrace, iterationCount_append, ih (c + 1)]
    simp only [cycleTrace, iterationCount]
    omega

/-! ## The loop fires only declared events -/

/-- In a state that has a `case`, the loop body fires the event declared for that
state, gets no error, and leaves the machine in a state that has a `case` again. -/
theorem loopBody_valid (pm : PomodoroClock)
    (h : pm.State = "begin" ∨ pm.State = "rest" ∨ pm.State = "end") :
    (loopBody pm).1 = none ∧
      ((loopBody pm).2.State = "begin" ∨ (loopBody pm).2.State = "rest" ∨
        (loopBody pm).2.State = "end") := by
  rcases h with hb | hr | he
  · rw [loopBody_begin pm hb]
    by_cases hN : pm.Cycles ≤ 0 <;> simp [hN]
  · rw [loopBody_rest pm hr]
    exact ⟨rfl, Or.inl rfl⟩
  · rw [loopBody_end pm he]
    exact ⟨rfl, Or.inl rfl⟩

/-- The machine stays in the states that have a `case`. -/
theorem iterations_valid (n : Nat) :
    ∀ pm : PomodoroClock, (pm.State = "begin" ∨ pm.State = "rest" ∨ pm.State = "end") →
      ((iterations n pm).State = "begin" ∨ (iterations n pm).State = "rest" ∨
        (iterations n pm).State = "end") := by
  induction n with
  | zero => intro pm h; exact h
  | succ n ih =>
    intro pm h
    rw [iterations]
    exact ih _ (loopBody_valid pm h).2

/-- A run that starts in a state with a `case` and returns, returns `nil`. -/
theorem RunPomodoro_no_error (fuel : Nat) :
    ∀ (pm : PomodoroClock) (r : Option FsmError × PomodoroClock),
      (pm.State = "begin" ∨ pm.State = "rest" ∨ pm.State = "end") →
      RunPomodoro fuel pm = some r → r.1 = none := by
  induction fuel with
  | zero =>
    intro pm r _ hrun
    by_cases hlt : pm.CompletedCycles < pm.Cycles
    · rw [RunPomodoro] at hrun
      simp [hlt] at hrun
    · rw [RunPomodoro_done _ _ hlt] at hrun
      cases hrun
      rfl
  | succ fuel ih =>
    intro pm r h hrun
    by_cases hlt : pm.CompletedCycles < pm.Cycles
    · rw [RunPomodoro_succ _ _ hlt] at hrun
      obtain ⟨herr, hst⟩ := loopBody_valid pm h
      cases hbody : loopBody pm with
      | mk err pm2 =>
        rw [hbody] at hrun herr hst
        simp only at herr hst
        subst herr
        simp only at hrun
        exact ih pm2 r hst hrun
    · rw [RunPomodoro_done _ _ hlt] at hrun
      cases hrun
      rfl

/-! ## The idle loop of a clock with `Cycles ≤ 0` -/

/-- Two iterations from state `begin` when `Cycles ≤ 0`: to `end` and back. -/
theorem iterations_idleRound (n : Nat) (pm : PomodoroClock) (hb : pm.State = "begin")
    (hN : pm.Cycles ≤ 0) :
    iterations (n + 2) pm = iterations n { pm with trace := pm.trace ++ idleRound } := by
  obtain ⟨N, c, w, sr, lr, st, tr⟩ := pm
  simp only at hb hN
  subst hb
  rw [iterations, loopBody_begin _ rfl]
  simp only [hN, if_true]
  rw [iterations, loopBody_end _ rfl]
  simp [idleRound]

/-- The clocks at the top of the loop when `Cycles ≤ 0`: in `begin` after an even
number of iterations, in `end` after an odd number, and only the trace grows. -/
theorem iterations_idle (j : Nat) :
    ∀ pm : PomodoroClock, pm.State = "begin" → pm.Cycles ≤ 0 →
      iterations (2 * j) pm = { pm with trace := pm.trace ++ idleRounds j } ∧
      iterations (2 * j + 1) pm =
        { pm with
          State := "end",
          trace := pm.trace ++ idleRounds j ++
            [Obs.iteration "begin", Obs.fire "working" "begin", Obs.state "work",
             Obs.state "end"] } := by
  induction j with
  | zero =>
    intro pm hb hN
    obtain ⟨N, c, w, sr, lr, st, tr⟩ := pm
    simp only at hb hN
    subst hb
    constructor
    · simp [iterations, idleRounds]
    · show iterations 1 _ = _
      rw [iterations, loopBody_begin _ rfl]
      simp [hN, iterations, idleRounds]
  | succ j ih =>
    intro pm hb hN
    have h1 : 2 * (j + 1) = 2 * j + 2 := by omega
    have h2 : 2 * (j + 1) + 1 = (2 * j + 1) + 2 := by omega
    obtain ⟨i1, i2⟩ := ih { pm with trace := pm.trace ++ idleRound } hb hN
    constructor
    · rw [h1, iterations_idleRound _ pm hb hN, i1]
      simp [idleRounds, List.append_assoc]
    · rw [h2, iterations_idleRound _ pm hb hN, i2]
      simp [idleRounds, List.append_assoc]

/-- No wait is performed in idle rounds. -/
theorem waits_idleRounds (j : Nat) : waits (idleRounds j) = [] := by
  induction j with
  | zero => rfl
  | succ j ih =>
    rw [idleRounds, waits_append, ih]
    rfl

/-- With `CompletedCycles < Cycles ≤ 0` the loop never ends, whether it starts in
`begin` or in `end`. -/
theorem RunPomodoro_idle (fuel : Nat) :
    ∀ pm : PomodoroClock, (pm.State = "begin" ∨ pm.State = "end") →
      pm.CompletedCycles < pm.Cycles → pm.Cycles ≤ 0 → RunPomodoro fuel pm = none := by
  induction fuel with
  | zero =>
    intro pm _ hlt _
    rw [RunPomodoro]
    simp [hlt]
  | succ fuel ih =>
    intro pm h hlt hN
    rw [RunPomodoro_succ _ _ hlt]
    rcases h with hb | he
    · rw [loopBody_begin pm hb]
      simp only [hN, if_true]
      exact ih _ (Or.inr rfl) hlt hN
    · rw [loopBody_end pm he]
      exact ih _ (Or.inl rfl) hlt hN

/-! ## The frame of the events and of the run -/

/-- The callbacks of an event leave the configuration as it is. -/
theorem afterEventCallbacks_config (event : String) (pm : PomodoroClock) :
    config (afterEventCallbacks event pm) = config pm := by
  unfold afterEventCallbacks callbacks
  split_ifs <;> simp only [config, working, resting, finalizing, SetState, record, waitForTime]
  split_ifs <;> rfl

/-- An event, fired in any state, leaves the configuration as it is. -/
theorem Event_config (event : String) (pm : PomodoroClock) :
    config (Event event pm).2 = config pm := by
  unfold Event
  simp only [record]
  split
  · split_ifs <;> rfl
  · split_ifs
    · rw [afterEventCallbacks_config]
      rfl
    · rw [afterEventCallbacks_config]
      rfl

/-- The callbacks of `working` and `finalizing` leave the count as it is. -/
theorem afterEventCallbacks_count (event : String) (pm : PomodoroClock)
    (h : event = "working" ∨ event = "finalizing") :
    (afterEventCallbacks event pm).CompletedCycles = pm.CompletedCycles := by
  rcases h with h | h <;> subst h
  · simp only [afterEventCallbacks, callbacks, if_true, working, SetState, record, waitForTime]
    split_ifs <;> rfl
  · have h1 : ¬ (("finalizing" : String) = "working") := by decide
    have h2 : ¬ (("finalizing" : String) = "resting") := by decide
    simp only [afterEventCallbacks, callbacks, h1, h2, if_false, if_true, finalizing, record]

/-- Events `working` and `finalizing`, fired in any state, leave the count as it is. -/
theorem Event_count (event : String) (pm : PomodoroClock)
    (h : event = "working" ∨ event = "finalizing") :
    (Event event pm).2.CompletedCycles = pm.CompletedCycles := by
  unfold Event
  simp only [record]
  split
  · split_ifs <;> rfl
  · split_ifs
    · rw [afterEventCallbacks_count _ _ h]
    · rw [afterEventCallbacks_count _ _ h]
      rfl

/-- One iteration of the loop leaves the configuration as it is. -/
theorem loopBody_config (pm : PomodoroClock) : config (loopBody pm).2 = config pm := by
  unfold loopBody
  simp only [record]
  split_ifs
  · rw [Event_config]; rfl
  · rw [Event_config]; rfl
  · rw [Event_config]; rfl
  · rfl

/-- Any number of iterations leaves the configuration as it is. -/
theorem iterations_config (n : Nat) :
    ∀ pm : PomodoroClock, config (iterations n pm) = config pm := by
  induction n with
  | zero => intro pm; rfl
  | succ n ih =>
    intro pm
    rw [iterations, ih, loopBody_config]

/-- A run that returns leaves the configuration as it is. -/
theorem RunPomodoro_config (fuel : Nat) :
    ∀ (pm : PomodoroClock) (r : Option FsmError × PomodoroClock),
      RunPomodoro fuel pm = some r → config r.2 = config pm := by
  induction fuel with
  | zero =>
    intro pm r hrun
    by_cases hlt : pm.CompletedCycles < pm.Cycles
    · rw [RunPomodoro] at hrun
      simp [hlt] at hrun
    · rw [RunPomodoro_done _ _ hlt] at hrun
      cases hrun
      rfl
  | succ fuel ih =>
    intro pm r hrun
    by_cases hlt : pm.CompletedCycles < pm.Cycles
    · rw [RunPomodoro_succ _ _ hlt] at hrun
      have hcfg := loopBody_config pm
      cases hbody : loopBody pm with
      | mk err pm2 =>
        rw [hbody] at hrun hcfg
        simp only at hcfg
        cases err with
        | some e =>
          simp only [Option.some.injEq] at hrun
          subst hrun
          exact hcfg
        | none =>
          simp only at hrun
          rw [ih pm2 r hrun, hcfg]
    · rw [RunPomodoro_done _ _ hlt] at hrun
      cases hrun
      rfl

/-- Wrap-around lands in the `int64` range and differs by a multiple of `2 ^ 64`. -/
theorem wrap64_spec (x : Int) :
    minInt64 ≤ wrap64 x ∧ wrap64 x ≤ maxInt64 ∧
      (wrap64 x - x) % 18446744073709551616 = 0 := by
  unfold wrap64 minInt64 maxInt64
  omega

/-- Wrap-around is the identity exactly on the `int64` range. -/
theorem wrap64_eq_iff (x : Int) : wrap64 x = x ↔ minInt64 ≤ x ∧ x ≤ maxInt64 := by
  unfold wrap64 minInt64 maxInt64
  omega

/-! ## The loop in a state without a `case` -/

/-- In a state without a `case` every iteration only records itself. -/
theorem iterations_other (n : Nat) :
    ∀ pm : PomodoroClock, pm.State ≠ "begin" → pm.State ≠ "rest" → pm.State ≠ "end" →
      iterations n pm =
        { pm with trace := pm.trace ++ List.replicate n (Obs.iteration pm.State) } := by
  induction n with
  | zero =>
    intro pm _ _ _
    simp [iterations]
  | succ n ih =>
    intro pm h1 h2 h3
    rw [iterations, loopBody_other pm h1 h2 h3]
    rw [ih { pm with trace := pm.trace ++ [Obs.iteration pm.State] } h1 h2 h3]
    simp [List.replicate_succ]

/-! ## The claims -/

/-- C1: from state `begin` with `0 ≤ CompletedCycles = s < Cycles = N`, `RunPomodoro`
returns `nil` with `CompletedCycles = N` (after `2 * (N - s)` loop iterations, and
with any larger bound). What the run adds to the trace is exactly `N - s` times the
trace of one cycle, so it performs `N - s` work waits, each of `WorkTime`, and
`N - s` rest waits, alternating work, rest, work, rest, ..., first a work wait,
and no other wait. `Cycles` is a Go integer, hence at most `maxInt64`. -/
theorem C1_run_performs_every_cycle (pm : PomodoroClock) (hb : pm.State = "begin")
    (hs : 0 ≤ pm.CompletedCycles) (hlt : pm.CompletedCycles < pm.Cycles)
    (hmax : pm.Cycles ≤ maxInt64) :
    ∃ (k : Nat) (new : List Obs),
      (k : Int) = pm.Cycles - pm.CompletedCycles ∧
      (∀ extra : Nat, RunPomodoro (2 * k + extra) pm =
        some (none, { pm with CompletedCycles := pm.Cycles, trace := pm.trace ++ new })) ∧
      new = cyclesTrace pm.WorkTime pm.ShortRestTime pm.LongRestTime pm.CompletedCycles k ∧
      workWaits new =
        (List.range k).map (fun (i : Nat) => (pm.CompletedCycles + (i : Int), pm.WorkTime)) ∧
      (restWaits new).map Prod.fst =
        (List.range k).map (fun (i : Nat) => pm.CompletedCycles + (i : Int)) ∧
      (announcedWaits new).map Prod.fst =
        (List.range k).flatMap (fun _ => ["Working for...", "Sleeping for..."]) ∧
      (waits new).length = 2 * k := by
  have hk : ((pm.Cycles - pm.CompletedCycles).toNat : Int) = pm.Cycles - pm.CompletedCycles :=
    Int.toNat_of_nonneg (by omega)
  refine ⟨(pm.Cycles - pm.CompletedCycles).toNat, _, hk, fun extra => ?_, rfl, ?_, ?_, ?_, ?_⟩
  · exact RunPomodoro_cycles _ pm extra hb (by omega) hmax (by unfold minInt64; omega)
      (by omega)
  · exact workWaits_cyclesTrace _ _ _ _ _
  · rw [restWaits_cyclesTrace, List.map_map]
    rfl
  · rw [announcedWaits_cyclesTrace]
    induction List.range (pm.Cycles - pm.CompletedCycles).toNat with
    | nil => rfl
    | cons i l ih => simpa [List.flatMap_cons] using ih
  · rw [waits_cyclesTrace, length_flatMap_pair, List.length_range]

/-- Witness of C1: a run resumed at one of three cycles performs the two cycles that
are left. -/
theorem C1_run_performs_every_cycle_witness :
    resumedClock.State = "begin" ∧ 0 ≤ resumedClock.CompletedCycles ∧
      resumedClock.CompletedCycles < resumedClock.Cycles ∧ resumedClock.Cycles ≤ maxInt64 ∧
      RunPomodoro 4 resumedClock =
        some (none,
          { resumedClock with CompletedCycles := 3, trace := cyclesTrace 25 3 15 1 2 }) := by
  obtain ⟨k, new, hk, hrun, hnew, -⟩ :=
    C1_run_performs_every_cycle resumedClock (by decide) (by decide) (by decide) (by decide)
  have hk2 : k = 2 := by
    have h3 : resumedClock.Cycles - resumedClock.CompletedCycles = 2 := by decide
    omega
  subst hk2
  subst hnew
  exact ⟨by decide, by decide, by decide, by decide, hrun 0⟩

/-- C2: in a run from state `begin` with `0 ≤ CompletedCycles = s < Cycles = N`, the
rest wait of the cycle that raises the count from `c` to `c + 1` (`s ≤ c < N`) lasts
`LongRestTime` if `(c + 1) mod 4 = 0` and `ShortRestTime` otherwise. With `s = 0`
the rest waits are short, short, short, long for `N = 4`, the same followed by
short for `N = 5`, and for `N = 8` exactly the fourth and the eighth are long.
`Cycles` is a Go integer, hence at most `maxInt64`. -/
theorem C2_rest_wait_rule (pm : PomodoroClock) (hb : pm.State = "begin")
    (hs : 0 ≤ pm.CompletedCycles) (hlt : pm.CompletedCycles < pm.Cycles)
    (hmax : pm.Cycles ≤ maxInt64) :
    ∃ (k : Nat) (new : List Obs),
      (k : Int) = pm.Cycles - pm.CompletedCycles ∧
      RunPomodoro (2 * k) pm =
        some (none, { pm with CompletedCycles := pm.Cycles, trace := pm.trace ++ new }) ∧
      restWaits new =
        (List.range k).map (fun (i : Nat) =>
          (pm.CompletedCycles + (i : Int),
            if (pm.CompletedCycles + (i : Int) + 1) % 4 = 0 then pm.LongRestTime
            else pm.ShortRestTime)) ∧
      (∀ c : Int, pm.CompletedCycles ≤ c → c < pm.Cycles →
        (c, if (c + 1) % 4 = 0 then pm.LongRestTime else pm.ShortRestTime) ∈ restWaits new) ∧
      (pm.CompletedCycles = 0 → pm.Cycles = 4 →
        (restWaits new).map Prod.snd =
          [pm.ShortRestTime, pm.ShortRestTime, pm.ShortRestTime, pm.LongRestTime]) ∧
      (pm.CompletedCycles = 0 → pm.Cycles = 5 →
        (restWaits new).map Prod.snd =
          [pm.ShortRestTime, pm.ShortRestTime, pm.ShortRestTime, pm.LongRestTime,
           pm.ShortRestTime]) ∧
      (pm.CompletedCycles = 0 → pm.Cycles = 8 →
        (restWaits new).map Prod.snd =
          [pm.ShortRestTime, pm.ShortRestTime, pm.ShortRestTime, pm.LongRestTime,
           pm.ShortRestTime, pm.ShortRestTime, pm.ShortRestTime, pm.LongRestTime]) := by
  have hk : ((pm.Cycles - pm.CompletedCycles).toNat : Int) = pm.Cycles - pm.CompletedCycles :=
    Int.toNat_of_nonneg (by omega)
  have hrun := RunPomodoro_cycles (pm.Cycles - pm.CompletedCycles).toNat pm 0 hb (by omega) hmax
    (by unfold minInt64; omega) (by omega)
  have hrest := restWaits_cyclesTrace pm.WorkTime pm.ShortRestTime pm.LongRestTime
    pm.CompletedCycles (pm.Cycles - pm.CompletedCycles).toNat
  simp only [restTimeout] at hrest
  refine ⟨(pm.Cycles - pm.CompletedCycles).toNat, _, hk, hrun, hrest, ?_, ?_, ?_, ?_⟩
  · intro c h1 h2
    rw [hrest, List.mem_map]
    have hm : (c - pm.CompletedCycles).toNat < (pm.Cycles - pm.CompletedCycles).toNat := by
      omega
    refine ⟨(c - pm.CompletedCycles).toNat, List.mem_range.mpr hm, ?_⟩
    have hc : pm.CompletedCycles + ((c - pm.CompletedCycles).toNat : Int) = c := by omega
    rw [hc]
  · intro h0 h4
    have hk4 : (pm.Cycles - pm.CompletedCycles).toNat = 4 := by omega
    rw [hrest, hk4, h0]
    norm_num [List.range_succ]
  · intro h0 h5
    have hk5 : (pm.Cycles - pm.CompletedCycles).toNat = 5 := by omega
    rw [hrest, hk5, h0]
    norm_num [List.range_succ]
  · intro h0 h8
    have hk8 : (pm.Cycles - pm.CompletedCycles).toNat = 8 := by omega
    rw [hrest, hk8, h0]
    norm_num [List.range_succ]

/-- Witness of C2: the rest waits of a fresh run of five cycles. -/
theorem C2_rest_wait_rule_witness :
    fiveCycleClock.State = "begin" ∧ 0 ≤ fiveCycleClock.CompletedCycles ∧
      fiveCycleClock.CompletedCycles < fiveCycleClock.Cycles ∧
      fiveCycleClock.Cycles ≤ maxInt64 ∧
      ∃ final : PomodoroClock, RunPomodoro 10 fiveCycleClock = some (none, final) ∧
        restWaits final.trace = [(0, 3), (1, 3), (2, 3), (3, 15), (4, 3)] := by
  obtain ⟨k, new, hk, hrun, hrest, -⟩ :=
    C2_rest_wait_rule fiveCycleClock (by decide) (by decide) (by decide) (by decide)
  have hk5 : k = 5 := by
    have h5 : fiveCycleClock.Cycles - fiveCycleClock.CompletedCycles = 5 := by decide
    omega
  subst hk5
  refine ⟨by decide, by decide, by decide, by decide, _, hrun, ?_⟩
  show restWaits ([] ++ new) = _
  rw [List.nil_append, hrest]
  decide

/-- C3: when `CompletedCycles ≥ Cycles` (in particular when `Cycles = 0` and
`CompletedCycles ≥ 0`) `RunPomodoro` returns `nil` before the first iteration,
whatever the state of the machine: the clock it returns is the clock it was given,
so nothing was added to the trace (no iteration, no event, no wait) and the count
and the state are unchanged. -/
theorem C3_nothing_to_do_returns_at_once (pm : PomodoroClock) (fuel : Nat)
    (h : pm.Cycles ≤ pm.CompletedCycles) : RunPomodoro fuel pm = some (none, pm) :=
  RunPomodoro_done fuel pm (by omega)

/-- Witness of C3: zero cycles requested on a fresh clock. -/
theorem C3_nothing_to_do_returns_at_once_witness :
    NewPomodoroClock.Cycles = 0 ∧ 0 ≤ NewPomodoroClock.CompletedCycles ∧
      RunPomodoro 0 NewPomodoroClock = some (none, NewPomodoroClock) :=
  ⟨by decide, by decide, C3_nothing_to_do_returns_at_once NewPomodoroClock 0 (by decide)⟩

/-- C4: firing an event for which no transition is declared from the current state
(`working` outside `begin`, `resting` outside `rest`, `finalizing` outside `end`, or
an event that is not declared at all) returns an error: `InvalidEventError` for a
declared event, `UnknownEventError` otherwise. The clock that comes back differs from
the one given only by the trace entry of the call itself: no state change, no
callback (no debug line, no wait), and the same `CompletedCycles`. -/
theorem C4_undeclared_event_is_rejected (event : String) (pm : PomodoroClock)
    (h1 : ¬ (event = "working" ∧ pm.State = "begin"))
    (h2 : ¬ (event = "resting" ∧ pm.State = "rest"))
    (h3 : ¬ (event = "finalizing" ∧ pm.State = "end")) :
    transitions event pm.State = none ∧
    Event event pm =
      (some
        (if event = "working" ∨ event = "resting" ∨ event = "finalizing" then
          FsmError.InvalidEventError event pm.State
        else FsmError.UnknownEventError event),
        { pm with trace := pm.trace ++ [Obs.fire event pm.State] }) ∧
    (Event event pm).2.CompletedCycles = pm.CompletedCycles ∧
    (Event event pm).2.State = pm.State ∧
    waits (Event event pm).2.trace = waits pm.trace := by
  have hE := Event_not_declared event pm h1 h2 h3
  refine ⟨transitions_eq_none event pm.State h1 h2 h3, hE, ?_, ?_, ?_⟩
  · rw [hE]
  · rw [hE]
  · rw [hE]
    show waits (pm.trace ++ [Obs.fire event pm.State]) = waits pm.trace
    rw [waits_append]
    simp [waits]

/-- Witness of C4: event `resting` forced on the default clock, which is in state
`begin`. -/
theorem C4_undeclared_event_is_rejected_witness :
    Event "resting" defaultClock =
      (some (FsmError.InvalidEventError "resting" "begin"),
        { defaultClock with trace := [Obs.fire "resting" "begin"] }) :=
  (C4_undeclared_event_is_rejected "resting" defaultClock (by decide) (by decide)
    (by decide)).2.1

/-- C5, counterexample: the clock `completedClock` is in state `begin` with
`CompletedCycles = 1 ≥ Cycles = 1`, and event `working` does not go to state `end`:
it waits for `WorkTime = 25` and ends in state `rest`. -/
theorem C5_counterexample :
    completedClock.State = "begin" ∧
      completedClock.CompletedCycles ≥ completedClock.Cycles ∧
      (Event "working" completedClock).2.State = "rest" ∧
      waits (Event "working" completedClock).2.trace = [25] ∧
      ¬ ((Event "working" completedClock).2.State = "end" ∧
          waits (Event "working" completedClock).2.trace = []) := by
  decide

/-- C5, as amended: in state `begin`, event `working` goes directly to state `end`
with no wait if `Cycles ≤ 0`, and otherwise performs exactly one wait, of `WorkTime`,
and ends in state `rest`. It returns no error in either case. -/
theorem C5_working_in_begin (pm : PomodoroClock) (hb : pm.State = "begin") :
    (pm.Cycles ≤ 0 →
      Event "working" pm =
        (none,
          { pm with
            State := "end",
            trace := pm.trace ++
              [Obs.fire "working" "begin", Obs.state "work", Obs.state "end"] }) ∧
      waits (Event "working" pm).2.trace = waits pm.trace) ∧
    (0 < pm.Cycles →
      Event "working" pm =
        (none,
          { pm with
            State := "rest",
            trace := pm.trace ++
              [Obs.fire "working" "begin", Obs.state "work",
               Obs.debug "Working for..." pm.CompletedCycles "work" pm.WorkTime,
               Obs.wait pm.WorkTime, Obs.state "rest"] }) ∧
      waits (Event "working" pm).2.trace = waits pm.trace ++ [pm.WorkTime]) := by
  have hE := Event_working_begin pm hb
  constructor
  · intro hN
    rw [hE]
    simp only [hN, if_true, true_and]
    rw [waits_append]
    simp [waits]
  · intro hN
    have hN2 : ¬ pm.Cycles ≤ 0 := by omega
    rw [hE]
    simp only [hN2, if_false, true_and]
    rw [waits_append]
    simp [waits]

/-- Witness of C5 as amended: event `working` on the default clock. -/
theorem C5_working_in_begin_witness :
    defaultClock.State = "begin" ∧ 0 < defaultClock.Cycles ∧
      Event "working" defaultClock =
        (none,
          { defaultClock with
            State := "rest",
            trace :=
              [Obs.fire "working" "begin", Obs.state "work",
               Obs.debug "Working for..." 0 "work" 25, Obs.wait 25, Obs.state "rest"] }) :=
  ⟨by decide, by decide,
    ((C5_working_in_begin defaultClock (by decide)).2 (by decide)).1⟩

/-- C6, counterexample: `overshootClock` has `Cycles = 3` and `CompletedCycles = 5`,
both non-negative; `RunPomodoro` returns at once and the count it leaves, 5, exceeds
`Cycles`. -/
theorem C6_counterexample :
    0 ≤ overshootClock.Cycles ∧ 0 ≤ overshootClock.CompletedCycles ∧
      RunPomodoro 0 overshootClock = some (none, overshootClock) ∧
      ¬ (overshootClock.CompletedCycles ≤ overshootClock.Cycles) := by
  decide

/-- C6, as amended: for non-negative `Cycles` and a non-negative starting count that
does not exceed `Cycles`, whenever `RunPomodoro` returns (from any state of the
machine, with `nil` or with an error) the count does not exceed `Cycles`, and
`Cycles` is what it was. From state `begin` it does return, with `nil`. `Cycles`
is a Go integer, hence at most `maxInt64`. -/
theorem C6_count_stays_within_cycles (pm : PomodoroClock) (hN : 0 ≤ pm.Cycles)
    (hs : 0 ≤ pm.CompletedCycles) (hle : pm.CompletedCycles ≤ pm.Cycles)
    (hmax : pm.Cycles ≤ maxInt64) :
    (∀ (fuel : Nat) (r : Option FsmError × PomodoroClock), RunPomodoro fuel pm = some r →
      r.2.CompletedCycles ≤ r.2.Cycles ∧ r.2.Cycles = pm.Cycles) ∧
    (pm.State = "begin" →
      ∃ (fuel : Nat) (final : PomodoroClock), RunPomodoro fuel pm = some (none, final) ∧
        final.CompletedCycles ≤ final.Cycles) := by
  have hmin : minInt64 ≤ pm.CompletedCycles := by unfold minInt64; omega
  constructor
  · intro fuel r hrun
    obtain ⟨h1, -, h3⟩ := RunPomodoro_count fuel pm r hmax hmin hrun
    exact ⟨by have := h3 hle; omega, h1⟩
  · intro hb
    by_cases hlt : pm.CompletedCycles < pm.Cycles
    · have hk : ((pm.Cycles - pm.CompletedCycles).toNat : Int) =
          pm.Cycles - pm.CompletedCycles := Int.toNat_of_nonneg (by omega)
      exact ⟨_, _, RunPomodoro_cycles (pm.Cycles - pm.CompletedCycles).toNat pm 0 hb
        (by omega) hmax hmin (by omega), le_refl _⟩
    · exact ⟨0, pm, RunPomodoro_done 0 pm hlt, hle⟩

/-- Witness of C6 as amended: the run resumed at one of three cycles ends with the
count at three. -/
theorem C6_count_stays_within_cycles_witness :
    0 ≤ resumedClock.Cycles ∧ 0 ≤ resumedClock.CompletedCycles ∧
      resumedClock.CompletedCycles ≤ resumedClock.Cycles ∧ resumedClock.Cycles ≤ maxInt64 ∧
      ∃ r : Option FsmError × PomodoroClock, RunPomodoro 4 resumedClock = some r ∧
        r.2.CompletedCycles ≤ r.2.Cycles ∧ r.2.Cycles = 3 :=
  ⟨by decide, by decide, by decide, by decide,
    (RunPomodoro 4 resumedClock).get (by decide), by simp,
    (C6_count_stays_within_cycles resumedClock (by decide) (by decide) (by decide)
      (by decide)).1 4 _ (by simp)⟩

/-- C7: one iteration of the loop never lowers `CompletedCycles`. It leaves the count
unchanged unless the machine is in state `rest` (events `working` and `finalizing`
do not touch it), and in state `rest` it fires `resting`, which raises the count by
exactly 1. In that iteration the debug line logs the old count, the timeout is
selected from the old count, the wait comes next and the new count is written last.
Hence a run that returns never returns a count below the one it started with.
`Cycles` and `CompletedCycles` are Go integers, so they lie in the `int64` range. -/
theorem C7_count_never_decreases (pm : PomodoroClock) (hmax : pm.Cycles ≤ maxInt64)
    (hmin : minInt64 ≤ pm.CompletedCycles) :
    (pm.State ≠ "rest" → (loopBody pm).2.CompletedCycles = pm.CompletedCycles) ∧
    (pm.State = "begin" → (Event "working" pm).2.CompletedCycles = pm.CompletedCycles) ∧
    (pm.State = "end" → (Event "finalizing" pm).2.CompletedCycles = pm.CompletedCycles) ∧
    (pm.State = "rest" → pm.CompletedCycles < pm.Cycles →
      loopBody pm =
        (none,
          { pm with
            CompletedCycles := pm.CompletedCycles + 1,
            State := "begin",
            trace := pm.trace ++
              [Obs.iteration "rest", Obs.fire "resting" "rest", Obs.state "work",
               Obs.debug "Sleeping for..." pm.CompletedCycles "work"
                 (if (pm.CompletedCycles + 1) % 4 = 0 then pm.LongRestTime
                  else pm.ShortRestTime),
               Obs.wait
                 (if (pm.CompletedCycles + 1) % 4 = 0 then pm.LongRestTime
                  else pm.ShortRestTime),
               Obs.state "begin", Obs.completed (pm.CompletedCycles + 1)] })) ∧
    (pm.CompletedCycles < pm.Cycles →
      pm.CompletedCycles ≤ (loopBody pm).2.CompletedCycles) ∧
    (∀ (fuel : Nat) (r : Option FsmError × PomodoroClock), RunPomodoro fuel pm = some r →
      pm.CompletedCycles ≤ r.2.CompletedCycles) := by
  refine ⟨?_, ?_, ?_, ?_, ?_, ?_⟩
  · intro hr
    by_cases hb : pm.State = "begin"
    · rw [loopBody_begin pm hb]
      by_cases hN : pm.Cycles ≤ 0 <;> simp only [hN, if_true, if_false]
    · by_cases he : pm.State = "end"
      · rw [loopBody_end pm he]
      · rw [loopBody_other pm hb hr he]
  · intro hb
    rw [Event_working_begin pm hb]
    by_cases hN : pm.Cycles ≤ 0 <;> simp only [hN, if_true, if_false]
  · intro he
    rw [Event_finalizing_end pm he]
  · intro hr hlt
    have hw : wrap64 (pm.CompletedCycles + 1) = pm.CompletedCycles + 1 :=
      wrap64_of_range _ (by omega) (by omega)
    rw [loopBody_rest pm hr, hw]
  · intro hlt
    exact (loopBody_count pm hlt hmax hmin).2.1
  · intro fuel r hrun
    exact (RunPomodoro_count fuel pm r hmax hmin hrun).2.1

/-- Witness of C7: the rest phase that completes the fourth cycle logs the count 3,
waits for the long rest and then writes the count 4. -/
theorem C7_count_never_decreases_witness :
    fourthRestClock.Cycles ≤ maxInt64 ∧ minInt64 ≤ fourthRestClock.CompletedCycles ∧
      loopBody fourthRestClock =
        (none,
          { fourthRestClock with
            CompletedCycles := 4,
            State := "begin",
            trace :=
              [Obs.iteration "rest", Obs.fire "resting" "rest", Obs.state "work",
               Obs.debug "Sleeping for..." 3 "work" 15, Obs.wait 15, Obs.state "begin",
               Obs.completed 4] }) :=
  ⟨by decide, by decide,
    (C7_count_never_decreases fourthRestClock (by decide) (by decide)).2.2.2.1
      (by decide) (by decide)⟩

/-- C8, counterexample: with the machine forced into state `work` and
`CompletedCycles = 0 < Cycles = 1`, `RunPomodoro` does not return within any number of
iterations, so there is no bound for which it returns an error. -/
theorem C8_counterexample :
    forcedWorkClock.State = "work" ∧
      forcedWorkClock.CompletedCycles < forcedWorkClock.Cycles ∧
      (∀ fuel : Nat, RunPomodoro fuel forcedWorkClock = none) ∧
      ¬ ∃ (fuel : Nat) (err : FsmError) (final : PomodoroClock),
          RunPomodoro fuel forcedWorkClock = some (some err, final) := by
  have hspin : ∀ fuel : Nat, RunPomodoro fuel forcedWorkClock = none :=
    fun fuel => RunPomodoro_spins fuel forcedWorkClock (by decide) (by decide) (by decide)
      (by decide)
  refine ⟨by decide, by decide, hspin, ?_⟩
  rintro ⟨fuel, err, final, hrun⟩
  rw [hspin fuel] at hrun
  exact absurd hrun (by simp)

/-- C8, as amended: when `RunPomodoro` is entered with `CompletedCycles < Cycles` and
the machine forced into state `work`, the `switch` has no `case` for that state: each
iteration fires no event, returns no error and leaves the count and the state as
they are, so after any number of iterations the clock differs from the initial one
only by the recorded iterations, and `RunPomodoro` does not return within any number
of iterations. A state-transition error arises only when an event is fired in state
`work`: each of `working`, `resting` and `finalizing` is then refused with
`InvalidEventError`. -/
theorem C8_forced_work_state_fires_nothing (pm : PomodoroClock) (hw : pm.State = "work")
    (hlt : pm.CompletedCycles < pm.Cycles) :
    (∀ fuel : Nat, RunPomodoro fuel pm = none) ∧
    loopBody pm = (none, { pm with trace := pm.trace ++ [Obs.iteration "work"] }) ∧
    (∀ n : Nat,
      iterations n pm =
        { pm with trace := pm.trace ++ List.replicate n (Obs.iteration "work") }) ∧
    (∀ event : String, event = "working" ∨ event = "resting" ∨ event = "finalizing" →
      Event event pm =
        (some (FsmError.InvalidEventError event "work"),
          { pm with trace := pm.trace ++ [Obs.fire event "work"] })) := by
  have h1 : pm.State ≠ "begin" := by rw [hw]; decide
  have h2 : pm.State ≠ "rest" := by rw [hw]; decide
  have h3 : pm.State ≠ "end" := by rw [hw]; decide
  refine ⟨fun fuel => RunPomodoro_spins fuel pm h1 h2 h3 hlt, ?_, fun n => ?_, ?_⟩
  · rw [loopBody_other pm h1 h2 h3, hw]
  · rw [iterations_other n pm h1 h2 h3, hw]
  · intro event hev
    rw [Event_not_declared event pm (fun h => h1 h.2) (fun h => h2 h.2) (fun h => h3 h.2),
      if_pos hev, hw]

/-- Witness of C8 as amended: five cycles requested, machine forced into `work`. -/
theorem C8_forced_work_state_fires_nothing_witness :
    forcedWorkFiveCycleClock.State = "work" ∧
      forcedWorkFiveCycleClock.CompletedCycles < forcedWorkFiveCycleClock.Cycles ∧
      RunPomodoro 1000 forcedWorkFiveCycleClock = none ∧
      iterations 3 forcedWorkFiveCycleClock =
        { forcedWorkFiveCycleClock with
          trace := [Obs.iteration "work", Obs.iteration "work", Obs.iteration "work"] } :=
  ⟨by decide, by decide,
    (C8_forced_work_state_fires_nothing forcedWorkFiveCycleClock (by decide)
      (by decide)).1 1000,
    (C8_forced_work_state_fires_nothing forcedWorkFiveCycleClock (by decide)
      (by decide)).2.2.1 3⟩

/-- C9: with the default flag values, a run takes two iterations of the loop (one is
not enough) and returns `nil` with `CompletedCycles = 1` and the machine in state
`begin`. It performs one work wait of 25 and then one rest wait of 3, the short
rest, and no other wait. -/
theorem C9_default_run :
    defaultClock =
      { Cycles := 1, CompletedCycles := 0, WorkTime := 25, ShortRestTime := 3,
        LongRestTime := 15, State := "begin", trace := [] } ∧
    RunPomodoro 1 defaultClock = none ∧
    (∀ extra : Nat, RunPomodoro (2 + extra) defaultClock =
      some (none,
        { Cycles := 1, CompletedCycles := 1, WorkTime := 25, ShortRestTime := 3,
          LongRestTime := 15, State := "begin",
          trace :=
            [Obs.iteration "begin", Obs.fire "working" "begin", Obs.state "work",
             Obs.debug "Working for..." 0 "work" 25, Obs.wait 25, Obs.state "rest",
             Obs.iteration "rest", Obs.fire "resting" "rest", Obs.state "work",
             Obs.debug "Sleeping for..." 0 "work" 3, Obs.wait 3, Obs.state "begin",
             Obs.completed 1] })) ∧
    (RunPomodoro 2 defaultClock).map (fun r => waits r.2.trace) = some [25, 3] ∧
    (RunPomodoro 2 defaultClock).map (fun r => workWaits r.2.trace) = some [(0, 25)] ∧
    (RunPomodoro 2 defaultClock).map (fun r => restWaits r.2.trace) = some [(0, 3)] := by
  refine ⟨by decide, by decide, fun extra => ?_, by decide, by decide, by decide⟩
  have hrun := RunPomodoro_cycles 1 defaultClock extra (by decide) (by decide) (by decide)
    (by decide) (by decide)
  rw [show 2 + extra = 2 * 1 + extra from rfl, hrun]
  decide

/-- C10: from state `begin` with non-negative `Cycles` and a non-negative count, the
run returns `nil` with the machine in state `begin`, and in what it adds to the
trace the machine is never put in state `end`, the event `finalizing` is never
fired, and every iteration of the loop finds the machine in `begin` (where it fires
`working`) or in `rest` (where it fires `resting`). `Cycles` is a Go integer, hence
at most `maxInt64`. -/
theorem C10_end_is_never_entered (pm : PomodoroClock) (hb : pm.State = "begin")
    (hN : 0 ≤ pm.Cycles) (hs : 0 ≤ pm.CompletedCycles) (hmax : pm.Cycles ≤ maxInt64) :
    ∃ (fuel : Nat) (final : PomodoroClock) (new : List Obs),
      (∀ extra : Nat, RunPomodoro (fuel + extra) pm = some (none, final)) ∧
      final.trace = pm.trace ++ new ∧
      final.State = "begin" ∧
      ∀ o ∈ new,
        o ≠ Obs.state "end" ∧
        (∀ p, o ≠ Obs.fire "finalizing" p) ∧
        (∀ p, o = Obs.iteration p → p = "begin" ∨ p = "rest") ∧
        (∀ e p, o = Obs.fire e p →
          (e = "working" ∧ p = "begin") ∨ (e = "resting" ∧ p = "rest")) := by
  by_cases hlt : pm.CompletedCycles < pm.Cycles
  · have hk : ((pm.Cycles - pm.CompletedCycles).toNat : Int) =
        pm.Cycles - pm.CompletedCycles := Int.toNat_of_nonneg (by omega)
    refine ⟨2 * (pm.Cycles - pm.CompletedCycles).toNat, _, _, fun extra =>
      RunPomodoro_cycles (pm.Cycles - pm.CompletedCycles).toNat pm extra hb (by omega) hmax
        (by unfold minInt64; omega) (by omega), rfl, hb, ?_⟩
    intro o ho
    exact mem_cyclesTrace _ _ _ _ _ o ho
  · refine ⟨0, pm, [], fun extra => RunPomodoro_done _ pm hlt, by simp, hb, ?_⟩
    intro o ho
    simp at ho

/-- Witness of C10: the fresh run of five cycles. -/
theorem C10_end_is_never_entered_witness :
    fiveCycleClock.State = "begin" ∧ 0 ≤ fiveCycleClock.Cycles ∧
      0 ≤ fiveCycleClock.CompletedCycles ∧ fiveCycleClock.Cycles ≤ maxInt64 ∧
      ∃ (fuel : Nat) (final : PomodoroClock),
        RunPomodoro fuel fiveCycleClock = some (none, final) ∧
        Obs.state "end" ∉ final.trace ∧ final.State = "begin" := by
  obtain ⟨fuel, final, new, hrun, htr, hst, hall⟩ :=
    C10_end_is_never_entered fiveCycleClock (by decide) (by decide) (by decide) (by decide)
  refine ⟨by decide, by decide, by decide, by decide, fuel, final, hrun 0, ?_, hst⟩
  rw [htr]
  intro hmem
  rcases List.mem_append.mp hmem with h | h
  · exact absurd h (by decide)
  · exact (hall _ h).1 rfl

/-- C11: a run started in state `begin`, with any `Cycles`, `CompletedCycles` and
durations, never returns an error: if it returns, it returns `nil`. At the top of
every iteration the machine is in `begin`, `rest` or `end`, never in the declared
destination `work`; the loop body fires the event that the table declares for that
state (`working` in `begin`, `resting` in `rest`, `finalizing` in `end`) and that
event returns no error. -/
theorem C11_run_returns_no_error (pm : PomodoroClock) (hb : pm.State = "begin") :
    (∀ (fuel : Nat) (r : Option FsmError × PomodoroClock),
      RunPomodoro fuel pm = some r → r.1 = none) ∧
    (∀ n : Nat,
      ((iterations n pm).State = "begin" ∨ (iterations n pm).State = "rest" ∨
        (iterations n pm).State = "end") ∧
      (iterations n pm).State ≠ "work" ∧
      (loopBody (iterations n pm)).1 = none ∧
      (∃ event dst : String,
        transitions event (iterations n pm).State = some dst ∧
        loopBody (iterations n pm) =
          Event event
            (record (Obs.iteration (iterations n pm).State) (iterations n pm)))) ∧
    transitions "working" "begin" = some "work" ∧
    transitions "resting" "rest" = some "work" ∧
    transitions "finalizing" "end" = some "begin" := by
  refine ⟨fun fuel r hrun => RunPomodoro_no_error fuel pm r (Or.inl hb) hrun, fun n => ?_,
    by decide, by decide, by decide⟩
  have hst := iterations_valid n pm (Or.inl hb)
  refine ⟨hst, ?_, (loopBody_valid _ hst).1, ?_⟩
  · rcases hst with h | h | h <;> rw [h] <;> decide
  · rcases hst with h | h | h
    · refine ⟨"working", "work", by rw [h]; decide, ?_⟩
      simp [loopBody, record, h]
    · refine ⟨"resting", "work", by rw [h]; decide, ?_⟩
      simp [loopBody, record, h]
    · refine ⟨"finalizing", "begin", by rw [h]; decide, ?_⟩
      simp [loopBody, record, h]

/-- Witness of C11: the default run returns `nil`. -/
theorem C11_run_returns_no_error_witness :
    defaultClock.State = "begin" ∧
      ∃ r : Option FsmError × PomodoroClock,
        RunPomodoro 2 defaultClock = some r ∧ r.1 = none :=
  ⟨by decide, (RunPomodoro 2 defaultClock).get (by decide), by simp,
    (C11_run_returns_no_error defaultClock (by decide)).1 2 _ (by simp)⟩

/-- C12: from state `begin` with `Cycles ≥ 0` and `CompletedCycles ≥ 0`, `RunPomodoro`
returns `nil` after exactly `2 * max(0, Cycles - CompletedCycles)` iterations of the
loop: it is still running when fewer are allowed, it has returned when that many or
more are allowed, and that many iterations are recorded in what it adds to the
trace. Before each of these iterations the loop condition holds, the machine is in
`begin` (even iterations) or `rest` (odd iterations), and the iteration lowers the
measure `2 * (Cycles - CompletedCycles) - (1 if rest else 0)` by exactly 1; after the
last one the loop condition is false. `Cycles` is a Go integer, hence at most
`maxInt64`. -/
theorem C12_run_takes_two_iterations_per_cycle (pm : PomodoroClock)
    (hb : pm.State = "begin") (hN : 0 ≤ pm.Cycles) (hs : 0 ≤ pm.CompletedCycles)
    (hmax : pm.Cycles ≤ maxInt64) :
    ∃ (k : Nat) (final : PomodoroClock),
      (k : Int) = max 0 (pm.Cycles - pm.CompletedCycles) ∧
      (∀ fuel : Nat, fuel < 2 * k → RunPomodoro fuel pm = none) ∧
      (∀ fuel : Nat, 2 * k ≤ fuel → RunPomodoro fuel pm = some (none, final)) ∧
      iterationCount final.trace = iterationCount pm.trace + 2 * k ∧
      iterations (2 * k) pm = final ∧
      ¬ final.CompletedCycles < final.Cycles ∧
      (∀ i : Nat, i < 2 * k →
        (iterations i pm).CompletedCycles < (iterations i pm).Cycles ∧
        (iterations i pm).State = (if i % 2 = 0 then "begin" else "rest") ∧
        (iterations (i + 1) pm).State ≠ (iterations i pm).State ∧
        loopMeasure (iterations (i + 1) pm) = loopMeasure (iterations i pm) - 1 ∧
        loopMeasure (iterations (i + 1) pm) < loopMeasure (iterations i pm)) := by
  by_cases hlt : pm.CompletedCycles < pm.Cycles
  · have hk : ((pm.Cycles - pm.CompletedCycles).toNat : Int) =
        pm.Cycles - pm.CompletedCycles := Int.toNat_of_nonneg (by omega)
    have hmin : minInt64 ≤ pm.CompletedCycles := by unfold minInt64; omega
    have hpos : 0 < pm.Cycles := by omega
    have hsum : pm.CompletedCycles + ((pm.Cycles - pm.CompletedCycles).toNat : Int) =
        pm.Cycles := by omega
    have hrun := RunPomodoro_cycles (pm.Cycles - pm.CompletedCycles).toNat pm
    have hit := iterations_run (pm.Cycles - pm.CompletedCycles).toNat pm
    refine ⟨(pm.Cycles - pm.CompletedCycles).toNat,
      { pm with
        CompletedCycles := pm.Cycles,
        trace := pm.trace ++
          cyclesTrace pm.WorkTime pm.ShortRestTime pm.LongRestTime pm.CompletedCycles
            (pm.Cycles - pm.CompletedCycles).toNat },
      by omega, ?_, ?_, ?_, ?_, ?_, ?_⟩
    · intro fuel hf
      exact RunPomodoro_short _ pm fuel hb hpos hmax hmin hsum hf
    · intro fuel hf
      obtain ⟨extra, rfl⟩ := Nat.exists_eq_add_of_le hf
      exact hrun extra hb hpos hmax hmin hsum
    · show iterationCount (pm.trace ++ _) = _
      rw [iterationCount_append, iterationCount_cyclesTrace]
    · exact iterations_cycles _ pm hb hpos hmax hmin hsum
    · show ¬ pm.Cycles < pm.Cycles
      omega
    · intro i hi
      obtain ⟨a1, a2, a3⟩ := hit i hb hpos hmax hmin hsum (by omega)
      obtain ⟨b1, b2, b3⟩ := hit (i + 1) hb hpos hmax hmin hsum (by omega)
      have hdiv : ((i / 2 : Nat) : Int) < (pm.Cycles - pm.CompletedCycles).toNat := by
        omega
      have hmeasure : loopMeasure (iterations (i + 1) pm) =
          loopMeasure (iterations i pm) - 1 := by
        unfold loopMeasure
        rw [a1, a2, a3, b1, b2, b3]
        rcases Nat.mod_two_eq_zero_or_one i with h0 | h1
        · have h2 : (i + 1) % 2 = 1 := by omega
          have h3 : (i + 1) / 2 = i / 2 := by omega
          rw [h0, h2, h3]
          simp
        · have h2 : (i + 1) % 2 = 0 := by omega
          have h3 : (i + 1) / 2 = i / 2 + 1 := by omega
          rw [h1, h2, h3]
          simp
          omega
      refine ⟨by rw [a1, a2]; omega, a3, ?_, hmeasure, by omega⟩
      · rw [a3, b3]
        rcases Nat.mod_two_eq_zero_or_one i with h0 | h1
        · have h2 : (i + 1) % 2 = 1 := by omega
          rw [h0, h2]
          decide
        · have h2 : (i + 1) % 2 = 0 := by omega
          rw [h1, h2]
          decide
  · have hk0 : (pm.Cycles - pm.CompletedCycles).toNat = 0 := by omega
    refine ⟨0, pm, by omega, ?_, ?_, by simp, rfl, hlt, ?_⟩
    · intro fuel hf
      omega
    · intro fuel _
      exact RunPomodoro_done fuel pm hlt
    · intro i hi
      omega

/-- Witness of C12: the run resumed at one of three cycles is still running after
three iterations and has returned after four. -/
theorem C12_run_takes_two_iterations_per_cycle_witness :
    resumedClock.State = "begin" ∧ 0 ≤ resumedClock.Cycles ∧
      0 ≤ resumedClock.CompletedCycles ∧ resumedClock.Cycles ≤ maxInt64 ∧
      RunPomodoro 3 resumedClock = none ∧
      ∃ final : PomodoroClock, RunPomodoro 4 resumedClock = some (none, final) := by
  obtain ⟨k, final, hk, hshort, hlong, -⟩ :=
    C12_run_takes_two_iterations_per_cycle resumedClock (by decide) (by decide) (by decide)
      (by decide)
  have hk2 : k = 2 := by
    have h3 : resumedClock.Cycles - resumedClock.CompletedCycles = 2 := by decide
    omega
  subst hk2
  exact ⟨by decide, by decide, by decide, by decide, hshort 3 (by omega), final,
    hlong 4 (by omega)⟩

/-- C13: from state `begin` with `CompletedCycles < Cycles ≤ 0`, `RunPomodoro` does not
return within any number of iterations. The loop alternates: in `begin` it fires
`working`, which puts the machine in `end`; in `end` it fires `finalizing`, which
puts it back in `begin`. After `2 * j` iterations the clock is the initial one with
`j` idle rounds added to the trace. No iteration returns an error, performs a wait or
changes `CompletedCycles`, and the loop condition stays true. -/
theorem C13_nonpositive_cycles_never_return (pm : PomodoroClock)
    (hb : pm.State = "begin") (hlt : pm.CompletedCycles < pm.Cycles)
    (hN : pm.Cycles ≤ 0) :
    (∀ fuel : Nat, RunPomodoro fuel pm = none) ∧
    (∀ j : Nat,
      iterations (2 * j) pm = { pm with trace := pm.trace ++ idleRounds j } ∧
      iterations (2 * j + 1) pm =
        { pm with
          State := "end",
          trace := pm.trace ++ idleRounds j ++
            [Obs.iteration "begin", Obs.fire "working" "begin", Obs.state "work",
             Obs.state "end"] }) ∧
    (∀ n : Nat,
      (loopBody (iterations n pm)).1 = none ∧
      (iterations n pm).CompletedCycles = pm.CompletedCycles ∧
      (iterations n pm).CompletedCycles < (iterations n pm).Cycles ∧
      waits (iterations n pm).trace = waits pm.trace) := by
  refine ⟨fun fuel => RunPomodoro_idle fuel pm (Or.inl hb) hlt hN,
    fun j => iterations_idle j pm hb hN, fun n => ?_⟩
  obtain ⟨i1, i2⟩ := iterations_idle (n / 2) pm hb hN
  rcases Nat.mod_two_eq_zero_or_one n with h0 | h1
  · have hn : n = 2 * (n / 2) := by omega
    rw [hn, i1]
    refine ⟨(loopBody_valid { pm with trace := pm.trace ++ idleRounds (n / 2) }
      (Or.inl hb)).1, rfl, hlt, ?_⟩
    show waits (pm.trace ++ idleRounds (n / 2)) = waits pm.trace
    rw [waits_append, waits_idleRounds, List.append_nil]
  · have hn : n = 2 * (n / 2) + 1 := by omega
    rw [hn, i2]
    refine ⟨(loopBody_valid _ (Or.inr (Or.inr rfl))).1, rfl, hlt, ?_⟩
    show waits (pm.trace ++ idleRounds (n / 2) ++ _) = waits pm.trace
    rw [waits_append, waits_append, waits_idleRounds, List.append_nil]
    simp [waits]

/-- Witness of C13: no cycle requested and a count of -1. -/
theorem C13_nonpositive_cycles_never_return_witness :
    negativeCountClock.State = "begin" ∧
      negativeCountClock.CompletedCycles < negativeCountClock.Cycles ∧
      negativeCountClock.Cycles ≤ 0 ∧
      RunPomodoro 1000 negativeCountClock = none ∧
      iterations 2 negativeCountClock = { negativeCountClock with trace := idleRound } :=
  ⟨by decide, by decide, by decide,
    (C13_nonpositive_cycles_never_return negativeCountClock (by decide) (by decide)
      (by decide)).1 1000,
    ((C13_nonpositive_cycles_never_return negativeCountClock (by decide) (by decide)
      (by decide)).2.1 1).1⟩

/-- C14: `waitForTime(t)` hands `t * time.Minute` to `time.After`, that is
`t * 60000000000` nanoseconds wrapped into the `int64` range. The result is `t`
minutes exactly when `-153722867 ≤ t ≤ 153722867`. The defaults 25, 3 and 15 give 25,
3 and 15 minutes; `t = 1000000000` (a flag value of one second) wraps to
4659767778871345152 nanoseconds, which is not `10 ^ 9` minutes. -/
theorem C14_wait_duration_wraps (t : Int) :
    waitDuration t = wrap64 (t * 60000000000) ∧
    minInt64 ≤ waitDuration t ∧ waitDuration t ≤ maxInt64 ∧
    (waitDuration t - t * 60000000000) % 18446744073709551616 = 0 ∧
    (waitDuration t = t * Minute ↔ -153722867 ≤ t ∧ t ≤ 153722867) ∧
    waitDuration defaultClock.WorkTime = 25 * Minute ∧
    waitDuration defaultClock.ShortRestTime = 3 * Minute ∧
    waitDuration defaultClock.LongRestTime = 15 * Minute ∧
    waitDuration 1000000000 = 4659767778871345152 ∧
    waitDuration 1000000000 ≠ 1000000000 * Minute := by
  have hspec := wrap64_spec (t * 60000000000)
  refine ⟨rfl, hspec.1, hspec.2.1, hspec.2.2, ?_, by decide, by decide, by decide,
    by decide, by decide⟩
  show wrap64 (t * 60000000000) = t * 60000000000 ↔ _
  rw [wrap64_eq_iff]
  unfold minInt64 maxInt64
  omega

/-- C15: every event (`working`, `resting`, `finalizing`), fired in any state, and
each of the three callbacks leave `Cycles`, `WorkTime`, `ShortRestTime` and
`LongRestTime` unchanged; `working` and `finalizing` also leave `CompletedCycles`
unchanged. So does one iteration of the loop, any number of iterations, and every
run of `RunPomodoro` that returns. -/
theorem C15_configuration_is_not_modified (pm : PomodoroClock) :
    config (Event "working" pm).2 = config pm ∧
    config (Event "resting" pm).2 = config pm ∧
    config (Event "finalizing" pm).2 = config pm ∧
    config (working pm) = config pm ∧
    config (resting pm) = config pm ∧
    config (finalizing pm) = config pm ∧
    (Event "working" pm).2.CompletedCycles = pm.CompletedCycles ∧
    (Event "finalizing" pm).2.CompletedCycles = pm.CompletedCycles ∧
    (working pm).CompletedCycles = pm.CompletedCycles ∧
    (finalizing pm).CompletedCycles = pm.CompletedCycles ∧
    config (loopBody pm).2 = config pm ∧
    (∀ n : Nat, config (iterations n pm) = config pm) ∧
    (∀ (fuel : Nat) (r : Option FsmError × PomodoroClock),
      RunPomodoro fuel pm = some r → config r.2 = config pm) := by
  refine ⟨Event_config _ pm, Event_config _ pm, Event_config _ pm, ?_, ?_, ?_,
    Event_count _ pm (Or.inl rfl), Event_count _ pm (Or.inr rfl), ?_, ?_,
    loopBody_config pm, fun n => iterations_config n pm,
    fun fuel r hrun => RunPomodoro_config fuel pm r hrun⟩
  · simp only [config, working, SetState, record, waitForTime]
    split_ifs <;> rfl
  · rfl
  · rfl
  · simp only [working, SetState, record, waitForTime]
    split_ifs <;> rfl
  · rfl

/-- Witness of C15: the default run returns with the configuration it was given. -/
theorem C15_configuration_is_not_modified_witness :
    ∃ r : Option FsmError × PomodoroClock,
      RunPomodoro 2 defaultClock = some r ∧ config r.2 = (1, 25, 3, 15) :=
  ⟨(RunPomodoro 2 defaultClock).get (by decide), by simp,
    (C15_configuration_is_not_modified defaultClock).2.2.2.2.2.2.2.2.2.2.2.2 2 _
      (by simp)⟩

end Pomodoro
